import Mathlib

/-!
# Verification of the Dirzas retrieval core

A shallow embedding of the retrieval subsystem of the repository:
the tokenizer, cosine scorer, speaker segmenter, date extractor and
speaker/date indices of `src/rag_speaker.py`, together with the
orchestrating functions of `src/web_ui.py` (`upload_fn`, `chat_fn`,
`date_chat_fn`, `clear_db`).

Modelling conventions:
* Python strings are modelled as `List Char` (`Txt`).  String literals are
  injected with `chars`.
* Python `dict`s are modelled as insertion-ordered association lists;
  `dset` is item assignment (replace in place or append), `dlookup` is
  item access.
* Character classes (`\w`, `\s`, `\d`, `str.isupper`, `str.lower`,
  accent stripping) follow Python's Unicode semantics on the repertoire
  the application actually processes: ASCII, the Latin-1 supplement and
  Latin Extended-A (which contains every Lithuanian letter).  Characters
  outside these blocks are treated as un-cased non-letters.
* Python floats: every similarity the code computes is non-negative, and
  the order between two similarities `d/√p` and `d2/√p2` coincides with
  the order between the rationals `d²/p` and `d2²/p2`; the model therefore
  stores the exact squared similarity as a rational number, keeping the
  development executable.
-/

abbrev Txt := List Char

def chars (s : String) : Txt := s.data

/-! ## Character predicates (Python semantics on the modelled repertoire) -/

/-- Code points of uppercase letters: ASCII `A`-`Z`, Latin-1 `À`-`Þ`
(except `×`), and the uppercase halves of Latin Extended-A. -/
def isUpperCode (n : Nat) : Bool :=
  (0x41 ≤ n && n ≤ 0x5A) ||
  (0xC0 ≤ n && n ≤ 0xDE && n ≠ 0xD7) ||
  (0x100 ≤ n && n ≤ 0x137 && n % 2 = 0) ||
  (0x139 ≤ n && n ≤ 0x147 && n % 2 = 1) ||
  (0x14A ≤ n && n ≤ 0x176 && n % 2 = 0) ||
  n = 0x178 || n = 0x179 || n = 0x17B || n = 0x17D

/-- Code points of lowercase letters on the modelled repertoire. -/
def isLowerCode (n : Nat) : Bool :=
  (0x61 ≤ n && n ≤ 0x7A) ||
  (0xDF ≤ n && n ≤ 0xFF && n ≠ 0xF7) ||
  (0x101 ≤ n && n ≤ 0x137 && n % 2 = 1) ||
  n = 0x138 ||
  (0x13A ≤ n && n ≤ 0x148 && n % 2 = 0) ||
  n = 0x149 ||
  (0x14B ≤ n && n ≤ 0x177 && n % 2 = 1) ||
  n = 0x17A || n = 0x17C || n = 0x17E || n = 0x17F

/-- Decimal digits (`\d` restricted to ASCII, which is all the sources use). -/
def isDigitCode (n : Nat) : Bool := 0x30 ≤ n && n ≤ 0x39

/-- Python `\w`: letters, digits and the underscore. -/
def isWordCode (n : Nat) : Bool :=
  isUpperCode n || isLowerCode n || isDigitCode n || n = 0x5F

/-- `str.lower` on a single code point of the modelled repertoire. -/
def lowerCode (n : Nat) : Nat :=
  if 0x41 ≤ n ∧ n ≤ 0x5A then n + 32
  else if 0xC0 ≤ n ∧ n ≤ 0xDE ∧ n ≠ 0xD7 then n + 32
  else if n = 0x178 then 0xFF
  else if (0x100 ≤ n ∧ n ≤ 0x137 ∧ n % 2 = 0) ∨
          (0x139 ≤ n ∧ n ≤ 0x147 ∧ n % 2 = 1) ∨
          (0x14A ≤ n ∧ n ≤ 0x176 ∧ n % 2 = 0) ∨
          n = 0x179 ∨ n = 0x17B ∨ n = 0x17D then n + 1
  else n

def pyIsUpperCh (c : Char) : Bool := isUpperCode c.toNat
def pyIsLowerCh (c : Char) : Bool := isLowerCode c.toNat
def pyIsDigitCh (c : Char) : Bool := isDigitCode c.toNat
def pyIsWordChar (c : Char) : Bool := isWordCode c.toNat
def pyIsCased (c : Char) : Bool := isUpperCode c.toNat || isLowerCode c.toNat

/-- Alphanumeric characters, as in Python `str.isalnum` on the modelled
repertoire (letters or digits; the underscore is not alphanumeric). -/
def pyIsAlnum (c : Char) : Bool :=
  isUpperCode c.toNat || isLowerCode c.toNat || isDigitCode c.toNat

def pyToLower (c : Char) : Char := Char.ofNat (lowerCode c.toNat)

/-- Python `\s` (whitespace), restricted to the Latin-1 range. -/
def pyIsSpace (c : Char) : Bool :=
  c = ' ' || c = '\t' || c = '\n' || c.toNat = 0x0B || c.toNat = 0x0C ||
  c = '\r' || c.toNat = 0x1C || c.toNat = 0x1D || c.toNat = 0x1E ||
  c.toNat = 0x1F || c.toNat = 0x85 || c.toNat = 0xA0

lemma lowerCode_valid {n : Nat} (h : n.isValidChar) : (lowerCode n).isValidChar := by
  unfold lowerCode
  rcases h with h | ⟨h1, h2⟩
  · split
    · left; omega
    · split
      · left; omega
      · split
        · left; omega
        · split
          · left; omega
          · left; exact h
  · split
    · omega
    · split
      · omega
      · split
        · left; omega
        · split
          · omega
          · right; exact ⟨h1, h2⟩

lemma toNat_ofNat_valid (n : Nat) (h : n.isValidChar) : (Char.ofNat n).toNat = n := by
  have hlt : n < 2 ^ 32 := by
    rcases h with h | ⟨h1, h2⟩ <;> omega
  simp [Char.ofNat, h, Char.ofNatAux, Char.toNat, UInt32.toNat, BitVec.toNat_ofNat,
    Nat.mod_eq_of_lt hlt]

lemma toNat_pyToLower (c : Char) : (pyToLower c).toNat = lowerCode c.toNat :=
  toNat_ofNat_valid _ (lowerCode_valid c.valid)

/-- Lowering a code point never produces an uppercase code point. -/
lemma isUpperCode_lowerCode (n : Nat) : isUpperCode (lowerCode n) = false := by
  unfold lowerCode isUpperCode
  split
  · simp only [Bool.or_eq_false_iff]
    refine ⟨⟨⟨⟨⟨?_, ?_⟩, ?_⟩, ?_⟩, ?_⟩, ?_⟩ <;> simp <;> omega
  · split
    · simp only [Bool.or_eq_false_iff]
      refine ⟨⟨⟨⟨⟨?_, ?_⟩, ?_⟩, ?_⟩, ?_⟩, ?_⟩ <;> simp <;> omega
    · split
      · simp
      · split
        · rename_i hrange
          simp only [Bool.or_eq_false_iff]
          refine ⟨⟨⟨⟨⟨?_, ?_⟩, ?_⟩, ?_⟩, ?_⟩, ?_⟩ <;> simp <;> omega
        · rename_i h1 h2 h3 h4
          simp only [Bool.or_eq_false_iff]
          refine ⟨⟨⟨⟨⟨?_, ?_⟩, ?_⟩, ?_⟩, ?_⟩, ?_⟩ <;> simp <;> omega

lemma pyIsUpperCh_pyToLower (c : Char) : pyIsUpperCh (pyToLower c) = false := by
  simp [pyIsUpperCh, toNat_pyToLower, isUpperCode_lowerCode]

/-! ## String helpers (Python `str` methods) -/

/-- Maximal runs of characters satisfying `p`; the common core of
`re.findall(r"\w+", ...)` and `str.split()`. -/
def runsAux (p : Char → Bool) : Txt → Txt → List Txt
  | [], acc => if acc.isEmpty then [] else [acc.reverse]
  | c :: cs, acc =>
    if p c then runsAux p cs (c :: acc)
    else if acc.isEmpty then runsAux p cs []
    else acc.reverse :: runsAux p cs []

def runsOf (p : Char → Bool) (s : Txt) : List Txt := runsAux p s []

/-- `str.splitlines`: split on the Python line boundaries, producing no
trailing empty line. -/
def isLineBreak (c : Char) : Bool :=
  c = '\n' || c = '\r' || c.toNat = 0x0B || c.toNat = 0x0C || c.toNat = 0x1C ||
  c.toNat = 0x1D || c.toNat = 0x1E || c.toNat = 0x85 ||
  c.toNat = 0x2028 || c.toNat = 0x2029

def splitlinesAux : Txt → Txt → List Txt
  | [], acc => if acc.isEmpty then [] else [acc.reverse]
  | '\r' :: '\n' :: cs, acc => acc.reverse :: splitlinesAux cs []
  | c :: cs, acc =>
    if isLineBreak c then acc.reverse :: splitlinesAux cs []
    else splitlinesAux cs (c :: acc)

def pySplitlines (s : Txt) : List Txt := splitlinesAux s []

/-- `str.strip()` (no argument): remove leading and trailing whitespace. -/
def pyStrip (s : Txt) : Txt :=
  (((s.dropWhile pyIsSpace).reverse).dropWhile pyIsSpace).reverse

/-- `str.split()` (no argument): whitespace-delimited words. -/
def pySplitWs (s : Txt) : List Txt := runsOf (fun c => !pyIsSpace c) s

/-- `str.isupper`: at least one cased character and no lowercase one. -/
def pyIsUpperStr (s : Txt) : Bool :=
  s.any pyIsCased && s.all (fun c => !pyIsLowerCh c)

/-- `str.lower` over a whole string. -/
def lowerTxt (s : Txt) : Txt := s.map pyToLower

/-- `tokenize` (rag_speaker.py line 34): `re.findall(r"\w+", text.lower())`. -/
def tokenize (text : Txt) : List Txt := runsOf pyIsWordChar (lowerTxt text)

lemma runsAux_mem_sat {p : Char → Bool} {s acc : Txt} {tok : Txt}
    (hacc : ∀ c ∈ acc, p c = true) (htok : tok ∈ runsAux p s acc) :
    ∀ c ∈ tok, p c = true := by
  induction s generalizing acc with
  | nil =>
    simp only [runsAux] at htok
    split at htok
    · simp at htok
    · simp only [List.mem_singleton] at htok
      subst htok
      intro c hc
      exact hacc c (List.mem_reverse.mp hc)
  | cons c cs ih =>
    simp only [runsAux] at htok
    split at htok
    · rename_i hpc
      exact ih (fun x hx => by
        rcases List.mem_cons.mp hx with h | h
        · subst h; exact hpc
        · exact hacc x h) htok
    · split at htok
      · exact ih (by simp) htok
      · rcases List.mem_cons.mp htok with h | h
        · subst h
          intro x hx
          exact hacc x (List.mem_reverse.mp hx)
        · exact ih (by simp) h

lemma tokenize_sat {text : Txt} {tok : Txt} (h : tok ∈ tokenize text) :
    ∀ c ∈ tok, pyIsWordChar c = true :=
  runsAux_mem_sat (by simp) h

lemma tokenize_chars_from_lower {text : Txt} {tok : Txt} (h : tok ∈ tokenize text) :
    ∀ c ∈ tok, c ∈ lowerTxt text := by
  have key : ∀ (s acc : Txt), (∀ c ∈ acc, c ∈ s ∨ c ∈ acc) →
      ∀ tok2 ∈ runsAux pyIsWordChar s acc, ∀ c ∈ tok2, c ∈ s ∨ c ∈ acc := by
    intro s
    induction s with
    | nil =>
      intro acc _ tok2 htok2 c hc
      simp only [runsAux] at htok2
      split at htok2
      · simp at htok2
      · simp only [List.mem_singleton] at htok2
        subst htok2
        exact Or.inr (List.mem_reverse.mp hc)
    | cons a as ih =>
      intro acc hacc tok2 htok2 c hc
      simp only [runsAux] at htok2
      split at htok2
      · have := ih (a :: acc) (fun x hx => Or.inr hx) tok2 htok2 c hc
        rcases this with h | h
        · exact Or.inl (List.mem_cons_of_mem _ h)
        · rcases List.mem_cons.mp h with h | h
          · exact Or.inl (by simp [h])
          · exact Or.inr h
      · split at htok2
        · have := ih [] (fun x hx => Or.inr hx) tok2 htok2 c hc
          rcases this with h | h
          · exact Or.inl (List.mem_cons_of_mem _ h)
          · simp at h
        · rcases List.mem_cons.mp htok2 with h | h
          · subst h
            exact Or.inr (List.mem_reverse.mp hc)
          · have := ih [] (fun x hx => Or.inr hx) tok2 h c hc
            rcases this with h2 | h2
            · exact Or.inl (List.mem_cons_of_mem _ h2)
            · simp at h2
  intro c hc
  have := key (lowerTxt text) [] (fun x hx => Or.inr hx) tok h c hc
  simpa using this

/-- Every character of every token is lowered text, hence not uppercase. -/
lemma tokenize_no_upper {text : Txt} {tok : Txt} (h : tok ∈ tokenize text) :
    ∀ c ∈ tok, pyIsUpperCh c = false := by
  intro c hc
  have hmem := tokenize_chars_from_lower h c hc
  simp only [lowerTxt, List.mem_map] at hmem
  obtain ⟨c0, _, rfl⟩ := hmem
  exact pyIsUpperCh_pyToLower c0

/-! ## Insertion-ordered dictionaries (Python `dict`) -/

/-- `d[k]`, as an `Option`. -/
def dlookup {α : Type} (k : Txt) : List (Txt × α) → Option α
  | [] => none
  | (k2, v) :: rest => if k2 = k then some v else dlookup k rest

/-- `d[k] = v`: replace in place, or append a new entry at the end. -/
def dset {α : Type} (k : Txt) (v : α) : List (Txt × α) → List (Txt × α)
  | [] => [(k, v)]
  | (k2, v2) :: rest => if k2 = k then (k, v) :: rest else (k2, v2) :: dset k v rest

/-- `d.setdefault(k, []).append(seg)`. -/
def dAppendSeg (k : Txt) (seg : Txt) : List (Txt × List Txt) → List (Txt × List Txt)
  | [] => [(k, [seg])]
  | (k2, v) :: rest =>
    if k2 = k then (k2, v ++ [seg]) :: rest else (k2, v) :: dAppendSeg k seg rest

/-- Replace the last element of a list by its image under `f` (Python
`xs[-1] = f(xs[-1])`; total, leaving the empty list unchanged). -/
def modifyLast {α : Type} (f : α → α) : List α → List α
  | [] => []
  | [a] => [f a]
  | a :: rest => a :: modifyLast f rest

/-- `d[k][-1] += suffix`. -/
def dAppendLast (k : Txt) (suffix : Txt) : List (Txt × List Txt) → List (Txt × List Txt)
  | [] => []
  | (k2, v) :: rest =>
    if k2 = k then (k2, modifyLast (fun seg => seg ++ suffix) v) :: rest
    else (k2, v) :: dAppendLast k suffix rest

lemma dlookup_dset {α : Type} (k k2 : Txt) (v : α) (l : List (Txt × α)) :
    dlookup k2 (dset k v l) = if k = k2 then some v else dlookup k2 l := by
  induction l with
  | nil => simp [dset, dlookup]
  | cons hd tl ih =>
    obtain ⟨k3, v3⟩ := hd
    by_cases h3 : k3 = k
    · subst h3
      simp only [dset, if_pos rfl]
      by_cases h2 : k3 = k2 <;> simp [dlookup, h2]
    · simp only [dset, if_neg h3]
      by_cases h2 : k3 = k2
      · subst h2
        have hne : ¬k = k3 := fun h => h3 h.symm
        simp [dlookup, hne]
      · simp [dlookup, h2, ih]

lemma keys_dset {α : Type} (k : Txt) (v : α) (l : List (Txt × α)) :
    (dset k v l).map Prod.fst =
      if k ∈ l.map Prod.fst then l.map Prod.fst else l.map Prod.fst ++ [k] := by
  induction l with
  | nil => simp [dset]
  | cons hd tl ih =>
    obtain ⟨k3, v3⟩ := hd
    by_cases h3 : k3 = k
    · rw [h3]
      simp only [dset, if_pos rfl, List.map_cons]
      have hm : k ∈ k :: tl.map Prod.fst := List.mem_cons_self _ _
      simp [hm]
    · have hne : ¬k = k3 := fun h => h3 h.symm
      simp only [dset, if_neg h3, List.map_cons]
      rw [ih]
      by_cases hm : k ∈ tl.map Prod.fst
      · simp [hm, List.mem_cons, hne]
      · simp [hm, List.mem_cons, hne]

lemma keys_dAppendLast (k suffix : Txt) (l : List (Txt × List Txt)) :
    (dAppendLast k suffix l).map Prod.fst = l.map Prod.fst := by
  induction l with
  | nil => simp [dAppendLast]
  | cons hd tl ih =>
    obtain ⟨k3, v3⟩ := hd
    by_cases h3 : k3 = k <;> simp [dAppendLast, h3, ih]

lemma dlookup_dAppendLast (k k2 suffix : Txt) (l : List (Txt × List Txt)) :
    dlookup k2 (dAppendLast k suffix l) =
      if k = k2 then (dlookup k2 l).map (modifyLast (fun seg => seg ++ suffix))
      else dlookup k2 l := by
  induction l with
  | nil => simp [dAppendLast, dlookup]
  | cons hd tl ih =>
    obtain ⟨k3, v3⟩ := hd
    by_cases h3 : k3 = k
    · subst h3
      simp only [dAppendLast, if_pos rfl]
      by_cases h2 : k3 = k2 <;> simp [dlookup, h2, ih]
    · simp only [dAppendLast, if_neg h3]
      by_cases h2 : k3 = k2
      · subst h2
        have hne : ¬k = k3 := fun h => h3 h.symm
        simp [dlookup, hne]
      · simp [dlookup, h2, ih]

lemma keys_dAppendSeg (k seg : Txt) (l : List (Txt × List Txt)) :
    (dAppendSeg k seg l).map Prod.fst =
      if k ∈ l.map Prod.fst then l.map Prod.fst else l.map Prod.fst ++ [k] := by
  induction l with
  | nil => simp [dAppendSeg]
  | cons hd tl ih =>
    obtain ⟨k3, v3⟩ := hd
    by_cases h3 : k3 = k
    · rw [h3]
      simp only [dAppendSeg, if_pos rfl, List.map_cons]
      have hm : k ∈ k :: tl.map Prod.fst := List.mem_cons_self _ _
      simp [hm]
    · have hne : ¬k = k3 := fun h => h3 h.symm
      simp only [dAppendSeg, if_neg h3, List.map_cons]
      rw [ih]
      by_cases hm : k ∈ tl.map Prod.fst
      · simp [hm, List.mem_cons, hne]
      · simp [hm, List.mem_cons, hne]

lemma dlookup_dAppendSeg (k k2 seg : Txt) (l : List (Txt × List Txt)) :
    dlookup k2 (dAppendSeg k seg l) =
      if k = k2 then some ((dlookup k2 l).getD [] ++ [seg])
      else dlookup k2 l := by
  induction l with
  | nil => simp [dAppendSeg, dlookup]
  | cons hd tl ih =>
    obtain ⟨k3, v3⟩ := hd
    by_cases h3 : k3 = k
    · subst h3
      simp only [dAppendSeg, if_pos rfl]
      by_cases h2 : k3 = k2 <;> simp [dlookup, h2, ih]
    · simp only [dAppendSeg, if_neg h3]
      by_cases h2 : k3 = k2
      · subst h2
        have hne : ¬k = k3 := fun h => h3 h.symm
        simp [dlookup, hne]
      · simp [dlookup, h2, ih]

/-! ## Speaker segmenter (`parse_speakers`, rag_speaker.py lines 48-83) -/

/-- Positions of `.` and `:` in a line (`re.finditer(r"[\.:]", line)`,
in increasing order of `match.start()`). -/
def delimPositions (line : Txt) : List Nat :=
  (List.range line.length).filter
    (fun i => line.getD i ' ' = '.' || line.getD i ' ' = ':')

/-- The inner `for match in re.finditer...` loop: the first delimiter whose
prefix is a plausible speaker name and whose remainder does not start with
another all-uppercase word wins.  Returns the accepted
`(speaker, remainder)` pair, if any. -/
def findSplit (line : Txt) : List Nat → Option (Txt × Txt)
  | [] => none
  | i :: rest =>
    let speaker := pyStrip (line.take i)
    let remainder := pyStrip (line.drop (i + 1))
    if speaker ≠ [] ∧ pyIsUpperStr speaker = true ∧
        pyIsDigitCh (speaker.getD 0 ' ') = false then
      match pySplitWs remainder with
      | w :: _ =>
        if pyIsUpperStr w then findSplit line rest else some (speaker, remainder)
      | [] => some (speaker, remainder)
    else findSplit line rest

structure PState where
  speakers : List (Txt × List Txt)
  current : Option Txt
deriving DecidableEq

/-- Process one raw line of the transcript (`line` in the source is the
stripped `raw_line`; it is written out in full below). -/
def stepLine (st : PState) (rawLine : Txt) : PState :=
  match findSplit (pyStrip rawLine) (delimPositions (pyStrip rawLine)) with
  | some (speaker, remainder) =>
    { speakers := dAppendSeg speaker remainder st.speakers, current := some speaker }
  | none =>
    match st.current with
    | some c =>
      { st with speakers := dAppendLast c ([' '] ++ pyStrip rawLine) st.speakers }
    | none => st

def runLines (lines : List Txt) : PState := lines.foldl stepLine ⟨[], none⟩

/-- `parse_speakers` (rag_speaker.py lines 48-83). -/
def parse_speakers (text : Txt) : List (Txt × List Txt) :=
  (runLines (pySplitlines text)).speakers

/-! ## Similarity scorer (`cosine_similarity`, rag_speaker.py lines 38-45)

A `Counter` is modelled by the token list it counts; `List.count` plays the
role of `Counter.__getitem__` and `List.dedup` of the key set.  The source
computes the float `dot / (sqrt(norm_a_sq) * sqrt(norm_b_sq))` (or exactly
`0.0` under the zero-norm guard).  All these values are non-negative, and
`d₁/√p₁ ≤ d₂/√p₂  ↔  d₁²·p₂ ≤ d₂²·p₁` whenever `p₁, p₂ > 0`; the model
therefore represents a similarity exactly by the pair `(d, p)` of natural
numbers and compares by cross-multiplied squares, which keeps the
development executable and induces the same ranking as the real-valued
similarity. -/

structure Score where
  num : Nat
  den : Nat
deriving DecidableEq

/-- `s₁ < s₂` as real numbers `num/√den` (valid whenever both `den > 0`,
which `cosineSim` guarantees). -/
def Score.lt (a b : Score) : Prop := a.num * a.num * b.den < b.num * b.num * a.den

def Score.le (a b : Score) : Prop := a.num * a.num * b.den ≤ b.num * b.num * a.den

/-- Equality of the represented similarity values. -/
def Score.sim (a b : Score) : Prop := a.num * a.num * b.den = b.num * b.num * a.den

instance : DecidableRel Score.lt := fun a b => by unfold Score.lt; infer_instance
instance : DecidableRel Score.le := fun a b => by unfold Score.le; infer_instance

def bagCount (bag : List Txt) (x : Txt) : Nat := bag.count x

/-- `sum(a[x] * b[x] for x in set(a) & set(b))`. -/
def bagDot (a b : List Txt) : Nat :=
  (((a.dedup.filter (fun x => b.contains x))).map
    (fun x => bagCount a x * bagCount b x)).sum

/-- `sum(v * v for v in a.values())` — the squared L2 norm. -/
def bagNormSq (a : List Txt) : Nat :=
  (a.dedup.map (fun x => bagCount a x * bagCount a x)).sum

/-- `cosine_similarity`, with the source's zero-norm guard (`0.0` is
represented as `⟨0, 1⟩`). -/
def cosineSim (a b : List Txt) : Score :=
  let dot := bagDot a b
  let normASq := bagNormSq a
  let normBSq := bagNormSq b
  if normASq = 0 ∨ normBSq = 0 then ⟨0, 1⟩
  else ⟨dot, normASq * normBSq⟩

/-! ## Speaker index (`SpeakerRAG`, rag_speaker.py lines 116-129) -/

structure RAG where
  corpora : List (Txt × List Txt)
  tokens : List (Txt × List (List Txt))
deriving DecidableEq

def emptyRAG : RAG := ⟨[], []⟩

/-- `SpeakerRAG.add_speaker` (lines 121-123). -/
def addSpeaker (speaker : Txt) (texts : List Txt) (r : RAG) : RAG :=
  { corpora := dset speaker texts r.corpora,
    tokens := dset speaker (texts.map tokenize) r.tokens }

/-- Insert index `i` into a descending-score list, after every index of
score `≥ score i` already present.  Because indices are inserted in
increasing order, this realises exactly Python's stable
`sorted(range(n), key=lambda i: scores[i], reverse=True)`. -/
def insertRanked (score : Nat → Score) (i : Nat) : List Nat → List Nat
  | [] => [i]
  | j :: js =>
    if Score.lt (score j) (score i) then i :: j :: js
    else j :: insertRanked score i js

def rankedIndices (score : Nat → Score) (n : Nat) : List Nat :=
  (List.range n).foldl (fun acc i => insertRanked score i acc) []

/-- `SpeakerRAG.retrieve` (lines 125-129).  Missing keys are modelled by the
empty default (the source raises `KeyError`; all claims below assume the key
is present). -/
def retrieve (r : RAG) (speaker query : Txt) (topK : Nat := 3) : List Txt :=
  let qTokens := tokenize query
  let bags := (dlookup speaker r.tokens).getD []
  let score : Nat → Score := fun i => cosineSim qTokens (bags.getD i [])
  let ranked := rankedIndices score bags.length
  (ranked.take topK).map (fun i => ((dlookup speaker r.corpora).getD []).getD i [])

/-! ## Index operations and the cached-token invariant -/

inductive RAGOp where
  | put (key : Txt) (texts : List Txt)
  | query (key question : Txt) (topK : Nat)
  | clear

/-- The state transition of each index operation; `query`/`retrieve` only
reads the state (web_ui.py's `clear_db` performs `clear` on each index). -/
def applyOp (r : RAG) : RAGOp → RAG
  | .put key texts => addSpeaker key texts r
  | .query _ _ _ => r
  | .clear => emptyRAG

/-- The cached-token invariant: both stores hold the same keys in the same
order, and each key's bag list is the token bags of its segment list. -/
def RAGInv (r : RAG) : Prop :=
  r.corpora.map Prod.fst = r.tokens.map Prod.fst ∧
  ∀ k segs bags, dlookup k r.corpora = some segs → dlookup k r.tokens = some bags →
    bags.length = segs.length ∧
    ∀ i, i < segs.length → bags.getD i [] = tokenize (segs.getD i [])

/-! ## Ranking lemmas -/

/-- The strict ranking produced by a stable descending sort: scores weakly
decrease along the list, and equally scored indices appear in increasing
(insertion) order. -/
def rankRel (score : Nat → Score) (i j : Nat) : Prop :=
  Score.le (score j) (score i) ∧ (Score.sim (score i) (score j) → i < j)

lemma Score.le_of_not_lt {a b : Score} (h : ¬ Score.lt a b) : Score.le b a := by
  unfold Score.lt at h
  unfold Score.le
  omega

lemma Score.le_of_lt {a b : Score} (h : Score.lt a b) : Score.le a b := by
  unfold Score.lt at h
  unfold Score.le
  omega

lemma Score.not_sim_of_lt {a b : Score} (h : Score.lt a b) : ¬ Score.sim b a := by
  unfold Score.lt at h
  unfold Score.sim
  omega

lemma Score.lt_of_le_of_lt {a b c : Score} (had : 0 < a.den)
    (h1 : Score.le a b) (h2 : Score.lt b c) : Score.lt a c := by
  unfold Score.le at h1
  unfold Score.lt at h2 ⊢
  have H1 : a.num * a.num * b.den * c.den ≤ b.num * b.num * a.den * c.den :=
    Nat.mul_le_mul_right _ h1
  have H2 : b.num * b.num * c.den * a.den < c.num * c.num * b.den * a.den :=
    Nat.mul_lt_mul_of_lt_of_le h2 (le_refl _) had
  have key : a.num * a.num * c.den * b.den < c.num * c.num * a.den * b.den := by
    nlinarith [H1, H2]
  exact Nat.lt_of_mul_lt_mul_right key

lemma cosineSim_den_pos (a b : List Txt) : 0 < (cosineSim a b).den := by
  by_cases h1 : bagNormSq a = 0
  · simp [cosineSim, h1]
  · by_cases h2 : bagNormSq b = 0
    · simp [cosineSim, h2]
    · simp only [cosineSim, h1, h2, or_self, if_false]
      exact Nat.mul_pos (Nat.pos_of_ne_zero h1) (Nat.pos_of_ne_zero h2)

lemma insertRanked_perm (score : Nat → Score) (i : Nat) (l : List Nat) :
    List.Perm (insertRanked score i l) (i :: l) := by
  induction l with
  | nil => exact List.Perm.refl _
  | cons j js ih =>
    unfold insertRanked
    split
    · exact List.Perm.refl _
    · exact (List.Perm.cons j ih).trans (List.Perm.swap i j js)

lemma insertRanked_pairwise (score : Nat → Score) (i : Nat) (l : List Nat)
    (hden : ∀ j, 0 < (score j).den)
    (hlt : ∀ j ∈ l, j < i)
    (hp : l.Pairwise (rankRel score)) :
    (insertRanked score i l).Pairwise (rankRel score) := by
  induction l with
  | nil => simp [insertRanked, List.Pairwise]
  | cons j js ih =>
    rcases List.pairwise_cons.mp hp with ⟨hj, hjs⟩
    unfold insertRanked
    split
    · rename_i hlt2
      refine List.pairwise_cons.mpr ⟨?_, hp⟩
      intro x hx
      rcases List.mem_cons.mp hx with h | h
      · subst h
        exact ⟨Score.le_of_lt hlt2, fun hs => absurd hs (Score.not_sim_of_lt hlt2)⟩
      · have hxj := hj x h
        have hxlt : Score.lt (score x) (score i) :=
          Score.lt_of_le_of_lt (hden x) hxj.1 hlt2
        exact ⟨Score.le_of_lt hxlt, fun hs => absurd hs (Score.not_sim_of_lt hxlt)⟩
    · rename_i hnlt
      refine List.pairwise_cons.mpr ⟨?_, ?_⟩
      · intro x hx
        have hmem : x ∈ i :: js := (insertRanked_perm score i js).mem_iff.mp hx
        rcases List.mem_cons.mp hmem with h | h
        · subst h
          exact ⟨Score.le_of_not_lt hnlt, fun _ => hlt j (List.mem_cons_self _ _)⟩
        · exact hj x h
      · exact ih (fun x hx => hlt x (List.mem_cons_of_mem _ hx)) hjs

lemma rankedIndices_foldl_succ (score : Nat → Score) (n : Nat) :
    rankedIndices score (n + 1) = insertRanked score n (rankedIndices score n) := by
  unfold rankedIndices
  rw [List.range_succ, List.foldl_append]
  rfl

lemma rankedIndices_perm (score : Nat → Score) (n : Nat) :
    List.Perm (rankedIndices score n) (List.range n) := by
  induction n with
  | zero => exact List.Perm.refl _
  | succ n ih =>
    rw [rankedIndices_foldl_succ, List.range_succ]
    exact ((insertRanked_perm score n _).trans (List.Perm.cons n ih)).trans
      (List.perm_append_singleton n (List.range n)).symm

lemma rankedIndices_pairwise (score : Nat → Score) (n : Nat)
    (hden : ∀ j, 0 < (score j).den) :
    (rankedIndices score n).Pairwise (rankRel score) := by
  induction n with
  | zero => simp [rankedIndices, List.Pairwise]
  | succ n ih =>
    rw [rankedIndices_foldl_succ]
    refine insertRanked_pairwise score n _ hden ?_ ih
    intro j hj
    have : j ∈ List.range n := (rankedIndices_perm score n).mem_iff.mp hj
    exact List.mem_range.mp this

lemma getD_map_tokenize_all (texts : List Txt) (i : Nat) :
    (texts.map tokenize).getD i [] = tokenize (texts.getD i []) := by
  by_cases h : i < texts.length
  · rw [List.getD_eq_getElem?_getD, List.getD_eq_getElem?_getD, List.getElem?_map,
      List.getElem?_eq_getElem h]
    simp
  · push_neg at h
    rw [List.getD_eq_default _ _ (by simpa using h), List.getD_eq_default _ _ h]
    rfl

lemma map_getD_range (l : List Txt) :
    (List.range l.length).map (fun i => l.getD i []) = l := by
  induction l with
  | nil => rfl
  | cons a as ih =>
    rw [List.length_cons, List.range_succ_eq_map, List.map_cons, List.map_map]
    simp only [List.getD_cons_zero, List.cons.injEq, true_and]
    have : ((fun i => (a :: as).getD i []) ∘ Nat.succ) = fun i => as.getD i [] := by
      funext i
      simp [List.getD_cons_succ]
    rw [this, ih]

/-- The score against which `retrieve` ranks the segments of a key, under
the cached-token invariant: the similarity between the query's token bag
and the segment's token bag. -/
def scoreOf (q : Txt) (segs : List Txt) (i : Nat) : Score :=
  cosineSim (tokenize q) (tokenize (segs.getD i []))

lemma retrieve_spec (r : RAG) (sp q : Txt) (k : Nat) (segs : List Txt)
    (h1 : dlookup sp r.corpora = some segs)
    (h2 : dlookup sp r.tokens = some (segs.map tokenize)) :
    ∃ idxs : List Nat,
      retrieve r sp q k = (idxs.take k).map (fun i => segs.getD i []) ∧
      List.Perm idxs (List.range segs.length) ∧
      idxs.Pairwise (rankRel (scoreOf q segs)) ∧
      (segs.length ≤ k → List.Perm (retrieve r sp q k) segs) := by
  have hscore : (fun i => cosineSim (tokenize q) ((segs.map tokenize).getD i [])) =
      scoreOf q segs := by
    funext i
    rw [getD_map_tokenize_all]
    rfl
  have hret : retrieve r sp q k =
      ((rankedIndices (scoreOf q segs) segs.length).take k).map
        (fun i => segs.getD i []) := by
    simp only [retrieve, h1, h2, Option.getD_some, List.length_map, hscore]
  refine ⟨rankedIndices (scoreOf q segs) segs.length, hret,
    rankedIndices_perm _ _,
    rankedIndices_pairwise _ _ (fun j => cosineSim_den_pos _ _), ?_⟩
  intro hk
  rw [hret]
  have hlen : (rankedIndices (scoreOf q segs) segs.length).length = segs.length :=
    (rankedIndices_perm _ _).length_eq.trans (List.length_range _)
  rw [List.take_of_length_le (by rw [hlen]; exact hk)]
  have hmap := List.Perm.map (fun i => segs.getD i [])
    (rankedIndices_perm (scoreOf q segs) segs.length)
  rwa [map_getD_range] at hmap

lemma RAGInv_empty : RAGInv emptyRAG := by
  constructor
  · rfl
  · intro k segs bags h1 _
    simp [emptyRAG, dlookup] at h1

lemma RAGInv_addSpeaker (r : RAG) (key : Txt) (texts : List Txt) (h : RAGInv r) :
    RAGInv (addSpeaker key texts r) := by
  obtain ⟨hkeys, hlook⟩ := h
  constructor
  · simp only [addSpeaker, keys_dset, hkeys]
  · intro k segs bags h1 h2
    rw [addSpeaker] at h1 h2
    simp only at h1 h2
    rw [dlookup_dset] at h1 h2
    by_cases hk : key = k
    · rw [if_pos hk] at h1 h2
      obtain rfl : texts = segs := by injection h1
      obtain rfl : texts.map tokenize = bags := by injection h2
      refine ⟨List.length_map _ _, ?_⟩
      intro i _
      exact getD_map_tokenize_all texts i
    · rw [if_neg hk] at h1 h2
      exact hlook k segs bags h1 h2

lemma RAGInv_applyOp (r : RAG) (op : RAGOp) (h : RAGInv r) : RAGInv (applyOp r op) := by
  cases op with
  | put key texts => exact RAGInv_addSpeaker r key texts h
  | query key question topK => exact h
  | clear => exact RAGInv_empty

/-! ## Date extractor (`extract_document_date`, rag_speaker.py lines 86-113)

The two regular expressions of `_DATE_PATTERNS` are compiled by hand.  Both
use character classes that are pairwise disjoint, so Python's backtracking
collapses to the deterministic longest-munch scans below; the only genuine
backtracking — a greedy `\d{1,2}` whose two-digit attempt may have to fall
back to one digit — is spelt out explicitly. -/

def isSepCh (c : Char) : Bool := c = '-' || c = '/' || c = '.'

/-- The letter class of the long (Lithuanian) date pattern:
`[A-Za-zĄČĘĖĮŠŲŪŽąčęėįšųūž]`. -/
def isP1Letter (c : Char) : Bool :=
  ('A' ≤ c && c ≤ 'Z') || ('a' ≤ c && c ≤ 'z') ||
  c.toNat = 0x104 || c.toNat = 0x10C || c.toNat = 0x118 || c.toNat = 0x116 ||
  c.toNat = 0x12E || c.toNat = 0x160 || c.toNat = 0x172 || c.toNat = 0x16A ||
  c.toNat = 0x17D ||
  c.toNat = 0x105 || c.toNat = 0x10D || c.toNat = 0x119 || c.toNat = 0x117 ||
  c.toNat = 0x12F || c.toNat = 0x161 || c.toNat = 0x173 || c.toNat = 0x16B ||
  c.toNat = 0x17E

/-- Take exactly `n` decimal digits. -/
def takeDigits : Txt → Nat → Option (Txt × Txt)
  | cs, 0 => some ([], cs)
  | [], _ + 1 => none
  | c :: cs, n + 1 =>
    if pyIsDigitCh c then (takeDigits cs n).map (fun p => (c :: p.1, p.2)) else none

/-- The numeric pattern's groups: `\d{4} sep \d{1,2} sep \d{1,2}`. -/
structure NumMatch where
  y : Txt
  s1 : Char
  m : Txt
  s2 : Char
  d : Txt
deriving DecidableEq

def group0 (nm : NumMatch) : Txt := nm.y ++ [nm.s1] ++ nm.m ++ [nm.s2] ++ nm.d

/-- Greedy one or two digits immediately followed by a separator (with the
regex's fallback from two digits to one spelt out). -/
def digits12Sep (cs : Txt) : Option (Txt × Char × Txt) :=
  match cs with
  | c1 :: c2 :: c3 :: rest =>
    if pyIsDigitCh c1 then
      if pyIsDigitCh c2 then
        if isSepCh c3 then some ([c1, c2], c3, rest) else none
      else if isSepCh c2 then some ([c1], c2, c3 :: rest) else none
    else none
  | [c1, c2] =>
    if pyIsDigitCh c1 && isSepCh c2 then some ([c1], c2, []) else none
  | _ => none

/-- Greedy `\d{1,2}` followed by a word boundary. -/
def digits12Bound (cs : Txt) : Option (Txt × Txt) :=
  match cs with
  | c1 :: c2 :: rest =>
    if pyIsDigitCh c1 then
      if pyIsDigitCh c2 then
        match rest with
        | [] => some ([c1, c2], [])
        | c3 :: _ => if pyIsWordChar c3 then none else some ([c1, c2], rest)
      else if pyIsWordChar c2 then none else some ([c1], c2 :: rest)
    else none
  | [c1] => if pyIsDigitCh c1 then some ([c1], []) else none
  | [] => none

/-- `_DATE_PATTERNS[1]` (year, month and day digits separated by `-`, `/` or `.`,
between word boundaries) matched at the
start of the given suffix (the leading `\b` is checked by the caller). -/
def matchP2At (cs : Txt) : Option NumMatch :=
  match takeDigits cs 4 with
  | some (y, s1 :: r2) =>
    if isSepCh s1 then
      match digits12Sep r2 with
      | some (m, s2, r3) =>
        match digits12Bound r3 with
        | some (d, _) => some ⟨y, s1, m, s2, d⟩
        | none => none
      | none => none
    else none
  | _ => none

/-- Leftmost search for pattern 2; `prevWord` tracks whether the previous
character is a word character (for the leading `\b`). -/
def searchP2 : Txt → Bool → Option NumMatch
  | [], _ => none
  | c :: cs, prevWord =>
    match (if prevWord then none else matchP2At (c :: cs)) with
    | some nm => some nm
    | none => searchP2 cs (pyIsWordChar c)

lemma length_dropWhile_lt_of_takeWhile_ne_nil (p : Char → Bool) (l : Txt)
    (h : ¬(l.takeWhile p).isEmpty) : (l.dropWhile p).length < l.length := by
  cases l with
  | nil => simp [List.takeWhile] at h
  | cons a as =>
    by_cases hp : p a
    · rw [List.dropWhile_cons_of_pos hp]
      exact Nat.lt_succ_of_le (List.Sublist.length_le (List.dropWhile_sublist p))
    · rw [List.takeWhile_cons_of_neg hp] at h
      simp at h

/-- The group `(?:\s+[L]+)*`, consumed greedily; the classes `\s`, `[L]`
and what can follow (`\s+\d`) are disjoint, so no backtracking can occur.
Each iteration consumes at least one character, so a fuel of `cs.length`
(supplied by `p1Star`) never runs out; the fuel only makes the recursion
structural. -/
def p1StarF : Nat → Txt → Txt × Txt
  | 0, cs => ([], cs)
  | fuel + 1, cs =>
    let sp := cs.takeWhile pyIsSpace
    let r1 := cs.dropWhile pyIsSpace
    let w := r1.takeWhile isP1Letter
    let r2 := r1.dropWhile isP1Letter
    if sp.isEmpty || w.isEmpty then ([], cs)
    else
      let rec2 := p1StarF fuel r2
      (sp ++ w ++ rec2.1, rec2.2)

def p1Star (cs : Txt) : Txt × Txt := p1StarF cs.length cs

/-- `\s*d\.?` (the `d` case-insensitively), returning consumed text and rest. -/
def p1DayTail (cs : Txt) : Option (Txt × Txt) :=
  let sp := cs.takeWhile pyIsSpace
  let r := cs.dropWhile pyIsSpace
  match r with
  | c :: rest =>
    if c = 'd' ∨ c = 'D' then
      match rest with
      | '.' :: rest2 => some (sp ++ [c, '.'], rest2)
      | _ => some (sp ++ [c], rest)
    else none
  | [] => none

/-- `\d{1,2}\s*d\.?` with the two-digit/one-digit fallback spelt out (the
fallback can never succeed, since the day tail cannot start with a digit). -/
def p1Day (cs : Txt) : Option (Txt × Txt) :=
  match cs with
  | c1 :: rest1 =>
    if pyIsDigitCh c1 then
      match rest1 with
      | c2 :: rest2 =>
        if pyIsDigitCh c2 then
          match p1DayTail rest2 with
          | some (t, r) => some (c1 :: c2 :: t, r)
          | none => none
        else
          match p1DayTail rest1 with
          | some (t, r) => some (c1 :: t, r)
          | none => none
      | [] => none
    else none
  | [] => none

/-- `_DATE_PATTERNS[0]`
(`\b\d{4}\s*m\.\s*[L]+(?:\s+[L]+)*\s+\d{1,2}\s*d\.?`, `re.IGNORECASE`)
matched at the start of the given suffix; returns `match.group(0)`. -/
def matchP1At (cs : Txt) : Option Txt :=
  match takeDigits cs 4 with
  | some (y, r1) =>
    let sp1 := r1.takeWhile pyIsSpace
    let r2 := r1.dropWhile pyIsSpace
    match r2 with
    | cm :: r3 =>
      if cm = 'm' ∨ cm = 'M' then
        match r3 with
        | '.' :: r4 =>
          let sp2 := r4.takeWhile pyIsSpace
          let r5 := r4.dropWhile pyIsSpace
          let w1 := r5.takeWhile isP1Letter
          let r6 := r5.dropWhile isP1Letter
          if w1.isEmpty then none
          else
            let star := p1Star r6
            let sp3 := star.2.takeWhile pyIsSpace
            let r8 := star.2.dropWhile pyIsSpace
            if sp3.isEmpty then none
            else
              match p1Day r8 with
              | some (dayTxt, _) =>
                some (y ++ sp1 ++ [cm, '.'] ++ sp2 ++ w1 ++ star.1 ++ sp3 ++ dayTxt)
              | none => none
        | _ => none
      else none
    | [] => none
  | none => none

def searchP1 : Txt → Bool → Option Txt
  | [], _ => none
  | c :: cs, prevWord =>
    match (if prevWord then none else matchP1At (c :: cs)) with
    | some g0 => some g0
    | none => searchP1 cs (pyIsWordChar c)

/-- `str.rstrip(',;')`. -/
def rstripCommaSemi (s : Txt) : Txt :=
  (s.reverse.dropWhile (fun c => c = ',' || c = ';')).reverse

/-- `match.group(0).strip().rstrip(',;')`. -/
def stripFound (s : Txt) : Txt := rstripCommaSemi (pyStrip s)

/-- `int()` on a digit string. -/
def natOfDigits (s : Txt) : Nat :=
  s.foldl (fun a c => a * 10 + (c.toNat - 0x30)) 0

def digitChar (n : Nat) : Char := Char.ofNat (0x30 + n)

/-- Decimal representation of a natural number (fueled to keep the
recursion structural; a fuel of `n + 1` always suffices since the value
shrinks by a factor of ten each step). -/
def natStrF : Nat → Nat → Txt
  | 0, _ => []
  | fuel + 1, n =>
    if n < 10 then [digitChar n]
    else natStrF fuel (n / 10) ++ [digitChar (n % 10)]

def natStr (n : Nat) : Txt := natStrF (n + 1) n

/-- Python's `f"{n:02d}"` for a non-negative `n`. -/
def pyFormat02d (n : Nat) : Txt := if n < 10 then '0' :: natStr n else natStr n

/-- Python re.split on the separator class (`-`, `/` or `.`). -/
def splitSepsAux : Txt → Txt → List Txt
  | [], acc => [acc.reverse]
  | c :: cs, acc =>
    if isSepCh c then acc.reverse :: splitSepsAux cs [] else splitSepsAux cs (c :: acc)

def splitSeps (s : Txt) : List Txt := splitSepsAux s []

/-- The numeric branch of `extract_document_date` (lines 108-111). -/
def formatNumeric (found : Txt) : Txt :=
  let parts := splitSeps found
  let year := parts.getD 0 []
  let mon := natOfDigits (parts.getD 1 [])
  let day := natOfDigits (parts.getD 2 [])
  year ++ ['-'] ++ pyFormat02d mon ++ ['-'] ++ pyFormat02d day

/-- What the function returns once a pattern has hit (lines 107-112). -/
def renderHit : Sum Txt NumMatch → Txt
  | .inl g0 => List.intercalate [' '] (pySplitWs (stripFound g0))
  | .inr nm => formatNumeric (stripFound (group0 nm))

/-- Try the two patterns, in order, on one (already stripped) line. -/
def tryLine (line : Txt) : Option (Sum Txt NumMatch) :=
  match searchP1 line false with
  | some g0 => some (Sum.inl g0)
  | none => (searchP2 line false).map Sum.inr

def scanLines : List Txt → Option (Sum Txt NumMatch)
  | [] => none
  | l :: rest =>
    let line := pyStrip l
    if line.isEmpty then scanLines rest
    else
      match tryLine line with
      | some h => some h
      | none => scanLines rest

/-- Which pattern fires first, and with which match, over the first
`maxLines` lines. -/
def firstDateHit (text : Txt) (maxLines : Nat := 40) : Option (Sum Txt NumMatch) :=
  scanLines ((pySplitlines text).take maxLines)

/-- `extract_document_date` (rag_speaker.py lines 95-113). -/
def extract_document_date (text : Txt) (maxLines : Nat := 40) : Option Txt :=
  (firstDateHit text maxLines).map renderHit

/-! ## Shape of a numeric date match, and the reformatting theorem -/

/-- Structural facts guaranteed by a successful numeric-pattern match. -/
def NumShape (nm : NumMatch) : Prop :=
  nm.y.length = 4 ∧ (∀ c ∈ nm.y, pyIsDigitCh c = true) ∧
  isSepCh nm.s1 = true ∧ isSepCh nm.s2 = true ∧
  1 ≤ nm.m.length ∧ nm.m.length ≤ 2 ∧ (∀ c ∈ nm.m, pyIsDigitCh c = true) ∧
  1 ≤ nm.d.length ∧ nm.d.length ≤ 2 ∧ (∀ c ∈ nm.d, pyIsDigitCh c = true)

/-- Zero-padded two-digit decimal representation - the `MM` and `DD` of the
specified output format. -/
def twoDigitChars (n : Nat) : Txt := [digitChar (n / 10 % 10), digitChar (n % 10)]

/-- The spec's promise for the numeric form, written from the spec's words:
the matched year digits, a dash, the zero-padded two-digit month, a dash,
the zero-padded two-digit day, independently of the separators and padding
the source used. -/
def specIsoReformat (nm : NumMatch) : Txt :=
  nm.y ++ ['-'] ++ twoDigitChars (natOfDigits nm.m) ++ ['-'] ++
    twoDigitChars (natOfDigits nm.d)

lemma takeDigits_shape :
    ∀ (n : Nat) (cs y r : Txt), takeDigits cs n = some (y, r) →
      y.length = n ∧ ∀ c ∈ y, pyIsDigitCh c = true := by
  intro n
  induction n with
  | zero =>
    intro cs y r h
    cases cs with
    | nil =>
      simp only [takeDigits, Option.some.injEq, Prod.mk.injEq] at h
      obtain ⟨h1, h2⟩ := h
      subst h1
      simp
    | cons c cs2 =>
      simp only [takeDigits, Option.some.injEq, Prod.mk.injEq] at h
      obtain ⟨h1, h2⟩ := h
      subst h1
      simp
  | succ n ih =>
    intro cs y r h
    cases cs with
    | nil => simp [takeDigits] at h
    | cons c cs2 =>
      simp only [takeDigits] at h
      by_cases hd : pyIsDigitCh c
      · rw [if_pos hd] at h
        cases htd : takeDigits cs2 n with
        | none => rw [htd] at h; simp at h
        | some p =>
          rw [htd] at h
          obtain ⟨hy, hr⟩ : c :: p.1 = y ∧ p.2 = r := by simpa using h
          obtain ⟨h1, h2⟩ := ih cs2 p.1 p.2 (by rw [htd])
          constructor
          · rw [← hy]; simp [h1]
          · intro x hx
            rw [← hy] at hx
            rcases List.mem_cons.mp hx with h3 | h3
            · subst h3; exact hd
            · exact h2 x h3
      · rw [if_neg hd] at h
        simp at h

lemma digits12Sep_shape (cs : Txt) (m : Txt) (s2 : Char) (r : Txt)
    (h : digits12Sep cs = some (m, s2, r)) :
    (1 ≤ m.length ∧ m.length ≤ 2) ∧ (∀ c ∈ m, pyIsDigitCh c = true) ∧
      isSepCh s2 = true := by
  match cs, h with
  | c1 :: c2 :: c3 :: rest, h =>
    simp only [digits12Sep] at h
    by_cases h1 : pyIsDigitCh c1
    · rw [if_pos h1] at h
      by_cases h2 : pyIsDigitCh c2
      · rw [if_pos h2] at h
        by_cases h3 : isSepCh c3
        · rw [if_pos h3] at h
          obtain ⟨rfl, rfl, rfl⟩ : m = [c1, c2] ∧ s2 = c3 ∧ r = rest := by
            simpa using h.symm
          refine ⟨by simp, ?_, h3⟩
          intro c hc
          rcases List.mem_cons.mp hc with h4 | h4
          · subst h4; exact h1
          · simp at h4; subst h4; exact h2
        · rw [if_neg h3] at h; simp at h
      · rw [if_neg h2] at h
        by_cases h3 : isSepCh c2
        · rw [if_pos h3] at h
          obtain ⟨rfl, rfl, rfl⟩ : m = [c1] ∧ s2 = c2 ∧ r = c3 :: rest := by
            simpa using h.symm
          refine ⟨by simp, ?_, h3⟩
          intro c hc
          simp at hc; subst hc; exact h1
        · rw [if_neg h3] at h; simp at h
    · rw [if_neg h1] at h; simp at h
  | [c1, c2], h =>
    simp only [digits12Sep] at h
    by_cases h1 : pyIsDigitCh c1 && isSepCh c2
    · rw [if_pos h1] at h
      obtain ⟨rfl, rfl, rfl⟩ : m = [c1] ∧ s2 = c2 ∧ r = [] := by
        simpa using h.symm
      have := Bool.and_elim_left h1
      have hs := Bool.and_elim_right h1
      refine ⟨by simp, ?_, hs⟩
      intro c hc
      simp at hc; subst hc; assumption
    · rw [if_neg h1] at h; simp at h

lemma digits12Bound_shape (cs : Txt) (d : Txt) (r : Txt)
    (h : digits12Bound cs = some (d, r)) :
    (1 ≤ d.length ∧ d.length ≤ 2) ∧ (∀ c ∈ d, pyIsDigitCh c = true) := by
  match cs, h with
  | c1 :: c2 :: rest, h =>
    simp only [digits12Bound] at h
    by_cases h1 : pyIsDigitCh c1
    · rw [if_pos h1] at h
      by_cases h2 : pyIsDigitCh c2
      · rw [if_pos h2] at h
        cases rest with
        | nil =>
          dsimp only at h
          obtain ⟨rfl, rfl⟩ : d = [c1, c2] ∧ r = [] := by simpa using h.symm
          refine ⟨by simp, ?_⟩
          intro c hc
          rcases List.mem_cons.mp hc with h4 | h4
          · subst h4; exact h1
          · simp at h4; subst h4; exact h2
        | cons c3 rest2 =>
          dsimp only at h
          by_cases h3 : pyIsWordChar c3
          · rw [if_pos h3] at h; simp at h
          · rw [if_neg h3] at h
            obtain ⟨rfl, rfl⟩ : d = [c1, c2] ∧ r = c3 :: rest2 := by simpa using h.symm
            refine ⟨by simp, ?_⟩
            intro c hc
            rcases List.mem_cons.mp hc with h4 | h4
            · subst h4; exact h1
            · simp at h4; subst h4; exact h2
      · rw [if_neg h2] at h
        by_cases h3 : pyIsWordChar c2
        · rw [if_pos h3] at h; simp at h
        · rw [if_neg h3] at h
          obtain ⟨rfl, rfl⟩ : d = [c1] ∧ r = c2 :: rest := by simpa using h.symm
          refine ⟨by simp, ?_⟩
          intro c hc
          simp at hc; subst hc; exact h1
    · rw [if_neg h1] at h; simp at h
  | [c1], h =>
    simp only [digits12Bound] at h
    by_cases h1 : pyIsDigitCh c1
    · rw [if_pos h1] at h
      obtain ⟨rfl, rfl⟩ : d = [c1] ∧ r = [] := by simpa using h.symm
      refine ⟨by simp, ?_⟩
      intro c hc
      simp at hc; subst hc; exact h1
    · rw [if_neg h1] at h; simp at h

lemma matchP2At_shape (cs : Txt) (nm : NumMatch) (h : matchP2At cs = some nm) :
    NumShape nm := by
  unfold matchP2At at h
  cases htd : takeDigits cs 4 with
  | none => rw [htd] at h; simp at h
  | some p =>
    rw [htd] at h
    obtain ⟨y, r1⟩ := p
    cases r1 with
    | nil => exact absurd h (by simp)
    | cons s1 r2 =>
      dsimp only at h
      by_cases hs1 : isSepCh s1
      · rw [if_pos hs1] at h
        cases hms : digits12Sep r2 with
        | none => rw [hms] at h; simp at h
        | some q =>
          rw [hms] at h
          obtain ⟨m, s2, r3⟩ := q
          dsimp only at h
          cases hds : digits12Bound r3 with
          | none => rw [hds] at h; simp at h
          | some w =>
            rw [hds] at h
            obtain ⟨d, r4⟩ := w
            dsimp only at h
            obtain rfl : NumMatch.mk y s1 m s2 d = nm := by simpa using h
            obtain ⟨hy1, hy2⟩ := takeDigits_shape 4 cs y (s1 :: r2) htd
            obtain ⟨hm1, hm2, hm3⟩ := digits12Sep_shape r2 m s2 r3 hms
            obtain ⟨hd1, hd2⟩ := digits12Bound_shape r3 d r4 hds
            exact ⟨hy1, hy2, hs1, hm3, hm1.1, hm1.2, hm2, hd1.1, hd1.2, hd2⟩
      · rw [if_neg hs1] at h; simp at h

lemma searchP2_shape (cs : Txt) (b : Bool) (nm : NumMatch)
    (h : searchP2 cs b = some nm) : NumShape nm := by
  induction cs generalizing b with
  | nil => simp [searchP2] at h
  | cons c cs2 ih =>
    unfold searchP2 at h
    cases hm : (if b = true then none else matchP2At (c :: cs2)) with
    | some nm2 =>
      rw [hm] at h
      dsimp only at h
      obtain rfl : nm2 = nm := by simpa using h
      cases b with
      | true => simp at hm
      | false =>
        simp only [Bool.false_eq_true, if_false] at hm
        exact matchP2At_shape _ _ hm
    | none =>
      rw [hm] at h
      dsimp only at h
      exact ih _ h

lemma tryLine_inr_shape (line : Txt) (nm : NumMatch)
    (h : tryLine line = some (Sum.inr nm)) : NumShape nm := by
  unfold tryLine at h
  cases hp1 : searchP1 line false with
  | some g0 =>
    rw [hp1] at h
    simp at h
  | none =>
    rw [hp1] at h
    dsimp only at h
    cases hp2 : searchP2 line false with
    | some nm2 =>
      rw [hp2] at h
      obtain rfl : nm2 = nm := by simpa using h
      exact searchP2_shape _ _ _ hp2
    | none => rw [hp2] at h; simp at h

lemma scanLines_inr_shape (ls : List Txt) (nm : NumMatch)
    (h : scanLines ls = some (Sum.inr nm)) : NumShape nm := by
  induction ls with
  | nil => simp [scanLines] at h
  | cons l rest ih =>
    unfold scanLines at h
    by_cases he : (pyStrip l).isEmpty
    · rw [if_pos he] at h
      exact ih h
    · rw [if_neg he] at h
      cases ht : tryLine (pyStrip l) with
      | some hit =>
        rw [ht] at h
        dsimp only at h
        obtain rfl : hit = Sum.inr nm := by simpa using h
        exact tryLine_inr_shape _ _ ht
      | none =>
        rw [ht] at h
        dsimp only at h
        exact ih h

lemma firstDateHit_inr_shape (text : Txt) (maxLines : Nat) (nm : NumMatch)
    (h : firstDateHit text maxLines = some (Sum.inr nm)) : NumShape nm :=
  scanLines_inr_shape _ _ h

/-- A digit is neither a whitespace, a separator, a comma nor a semicolon. -/
lemma digit_not_space {c : Char} (h : pyIsDigitCh c = true) : pyIsSpace c = false := by
  have hc : 0x30 ≤ c.toNat ∧ c.toNat ≤ 0x39 := by
    simpa [pyIsDigitCh, isDigitCode] using h
  have h1 : c ≠ ' ' := fun he => by subst he; exact absurd hc (by decide)
  have h2 : c ≠ '\t' := fun he => by subst he; exact absurd hc (by decide)
  have h3 : c ≠ '\n' := fun he => by subst he; exact absurd hc (by decide)
  have h4 : c ≠ '\r' := fun he => by subst he; exact absurd hc (by decide)
  simp [pyIsSpace, h1, h2, h3, h4]
  omega

lemma digit_not_sep {c : Char} (h : pyIsDigitCh c = true) : isSepCh c = false := by
  have hc : 0x30 ≤ c.toNat ∧ c.toNat ≤ 0x39 := by
    simpa [pyIsDigitCh, isDigitCode] using h
  have h1 : c ≠ '-' := fun he => by subst he; exact absurd hc (by decide)
  have h2 : c ≠ '/' := fun he => by subst he; exact absurd hc (by decide)
  have h3 : c ≠ '.' := fun he => by subst he; exact absurd hc (by decide)
  simp [isSepCh, h1, h2, h3]

lemma digit_not_comma {c : Char} (h : pyIsDigitCh c = true) :
    (c = ',' || c = ';') = false := by
  have hc : 0x30 ≤ c.toNat ∧ c.toNat ≤ 0x39 := by
    simpa [pyIsDigitCh, isDigitCode] using h
  have h1 : c ≠ ',' := fun he => by subst he; exact absurd hc (by decide)
  have h2 : c ≠ ';' := fun he => by subst he; exact absurd hc (by decide)
  simp [h1, h2]

lemma pyStrip_no_op {s : Txt}
    (h1 : ∀ c, s.head? = some c → pyIsSpace c = false)
    (h2 : ∀ c, s.getLast? = some c → pyIsSpace c = false) : pyStrip s = s := by
  cases s with
  | nil => rfl
  | cons a as =>
    have ha : pyIsSpace a = false := h1 a rfl
    unfold pyStrip
    rw [List.dropWhile_cons_of_neg (by simp [ha])]
    cases hr : (a :: as).reverse with
    | nil => exact absurd hr (by simp)
    | cons b bs =>
      have hb : (a :: as).getLast? = some b := by
        rw [← List.head?_reverse, hr]
        rfl
      have hbs : pyIsSpace b = false := h2 b hb
      have hdw : List.dropWhile pyIsSpace (b :: bs) = b :: bs :=
        List.dropWhile_cons_of_neg (by simp [hbs])
      rw [hdw, ← hr, List.reverse_reverse]

lemma rstripCommaSemi_no_op {s : Txt}
    (h2 : ∀ c, s.getLast? = some c → (c = ',' || c = ';') = false) :
    rstripCommaSemi s = s := by
  cases s with
  | nil => rfl
  | cons a as =>
    unfold rstripCommaSemi
    cases hr : (a :: as).reverse with
    | nil => exact absurd hr (by simp)
    | cons b bs =>
      have hb : (a :: as).getLast? = some b := by
        rw [← List.head?_reverse, hr]
        rfl
      have hbs : (b = ',' || b = ';') = false := h2 b hb
      have hdw : List.dropWhile (fun c => c = ',' || c = ';') (b :: bs) = b :: bs :=
        List.dropWhile_cons_of_neg (by simp_all)
      rw [hdw, ← hr, List.reverse_reverse]

lemma splitSepsAux_across (ds : Txt) :
    ∀ (rest acc : Txt) (s : Char), (∀ c ∈ ds, isSepCh c = false) →
      isSepCh s = true →
      splitSepsAux (ds ++ s :: rest) acc =
        (acc.reverse ++ ds) :: splitSepsAux rest [] := by
  induction ds with
  | nil =>
    intro rest acc s _ hsep
    simp [splitSepsAux, hsep]
  | cons c ds2 ih =>
    intro rest acc s hds hsep
    have hc : isSepCh c = false := hds c (List.mem_cons_self _ _)
    simp only [List.cons_append, splitSepsAux, hc, Bool.false_eq_true, if_false]
    rw [List.append_eq,
      ih rest (c :: acc) s (fun x hx => hds x (List.mem_cons_of_mem _ hx)) hsep]
    simp

lemma splitSepsAux_no_sep (ds : Txt) :
    ∀ (acc : Txt), (∀ c ∈ ds, isSepCh c = false) →
      splitSepsAux ds acc = [acc.reverse ++ ds] := by
  induction ds with
  | nil =>
    intro acc _
    simp [splitSepsAux]
  | cons c ds2 ih =>
    intro acc hds
    have hc : isSepCh c = false := hds c (List.mem_cons_self _ _)
    simp only [splitSepsAux, hc, Bool.false_eq_true, if_false]
    rw [ih (c :: acc) (fun x hx => hds x (List.mem_cons_of_mem _ hx))]
    simp

lemma splitSeps_group0 (nm : NumMatch) (hs : NumShape nm) :
    splitSeps (group0 nm) = [nm.y, nm.m, nm.d] := by
  obtain ⟨hy1, hy2, hs1, hs2, hm1, hm2, hm3, hd1, hd2, hd3⟩ := hs
  have hyn : ∀ c ∈ nm.y, isSepCh c = false := fun c hc => digit_not_sep (hy2 c hc)
  have hmn : ∀ c ∈ nm.m, isSepCh c = false := fun c hc => digit_not_sep (hm3 c hc)
  have hdn : ∀ c ∈ nm.d, isSepCh c = false := fun c hc => digit_not_sep (hd3 c hc)
  have hshape : group0 nm = nm.y ++ nm.s1 :: (nm.m ++ nm.s2 :: nm.d) := by
    simp [group0]
  rw [splitSeps, hshape, splitSepsAux_across _ _ _ _ hyn hs1]
  rw [splitSepsAux_across _ _ _ _ hmn hs2]
  rw [splitSepsAux_no_sep _ _ hdn]
  simp

lemma digit_bounds {c : Char} (h : pyIsDigitCh c = true) :
    0x30 ≤ c.toNat ∧ c.toNat ≤ 0x39 := by
  simpa [pyIsDigitCh, isDigitCode] using h

lemma natOfDigits_lt_100 {s : Txt} (hlen : s.length ≤ 2)
    (hd : ∀ c ∈ s, pyIsDigitCh c = true) : natOfDigits s < 100 := by
  match s, hlen with
  | [], _ => simp [natOfDigits]
  | [c], _ =>
    have := digit_bounds (hd c (by simp))
    simp only [natOfDigits, List.foldl_cons, List.foldl_nil]
    omega
  | [c1, c2], _ =>
    have h1 := digit_bounds (hd c1 (by simp))
    have h2 := digit_bounds (hd c2 (by simp))
    simp only [natOfDigits, List.foldl_cons, List.foldl_nil]
    omega

lemma pyFormat02d_eq_twoDigitChars {n : Nat} (h : n < 100) :
    pyFormat02d n = twoDigitChars n := by
  by_cases h10 : n < 10
  · have hd : n / 10 = 0 := Nat.div_eq_of_lt h10
    have hm : n % 10 = n := Nat.mod_eq_of_lt h10
    simp only [pyFormat02d, if_pos h10, natStr, natStrF, twoDigitChars, hd, hm]
    simp [h10, digitChar]
  · have h2 : 10 ≤ n := le_of_not_lt h10
    have hq : n / 10 < 10 := by omega
    have hqm : n / 10 % 10 = n / 10 := Nat.mod_eq_of_lt hq
    obtain ⟨k, rfl⟩ : ∃ k, n = k + 1 := ⟨n - 1, by omega⟩
    simp only [pyFormat02d, if_neg h10, natStr, natStrF, twoDigitChars, hqm]
    rw [if_pos hq]
    rfl

lemma group0_head_digit (nm : NumMatch) (hs : NumShape nm) :
    ∀ c, (group0 nm).head? = some c → pyIsDigitCh c = true := by
  obtain ⟨hy1, hy2, _⟩ := hs
  intro c hc
  cases hy : nm.y with
  | nil => rw [hy] at hy1; simp at hy1
  | cons a ys =>
    have : (group0 nm).head? = some a := by
      simp [group0, hy]
    rw [this] at hc
    have hac : a = c := by simpa using hc
    rw [← hac]
    exact hy2 a (by rw [hy]; exact List.mem_cons_self _ _)

lemma group0_last_digit (nm : NumMatch) (hs : NumShape nm) :
    ∀ c, (group0 nm).getLast? = some c → pyIsDigitCh c = true := by
  obtain ⟨hy1, hy2, hs1, hs2, hm1, hm2, hm3, hd1, hd2, hd3⟩ := hs
  intro c hc
  have hdn : nm.d ≠ [] := by
    intro he
    rw [he] at hd1
    simp at hd1
  have : (group0 nm).getLast? = nm.d.getLast? := by
    have : group0 nm = (nm.y ++ [nm.s1] ++ nm.m ++ [nm.s2]) ++ nm.d := by
      simp [group0]
    rw [this]
    exact List.getLast?_append_of_ne_nil _ hdn
  rw [this] at hc
  exact hd3 c (List.mem_of_mem_getLast? hc)

lemma stripFound_group0 (nm : NumMatch) (hs : NumShape nm) :
    stripFound (group0 nm) = group0 nm := by
  unfold stripFound
  rw [pyStrip_no_op
    (fun c hc => digit_not_space (group0_head_digit nm hs c hc))
    (fun c hc => digit_not_space (group0_last_digit nm hs c hc))]
  exact rstripCommaSemi_no_op
    (fun c hc => digit_not_comma (group0_last_digit nm hs c hc))

/-- Once the numeric pattern has fired, the rendered output is exactly the
spec's `YYYY-MM-DD` reformatting. -/
lemma renderHit_inr (nm : NumMatch) (hs : NumShape nm) :
    renderHit (Sum.inr nm) = specIsoReformat nm := by
  obtain ⟨hy1, hy2, hs1, hs2, hm1, hm2, hm3, hd1, hd2, hd3⟩ := hs
  have hsplit := splitSeps_group0 nm ⟨hy1, hy2, hs1, hs2, hm1, hm2, hm3, hd1, hd2, hd3⟩
  have hstrip := stripFound_group0 nm ⟨hy1, hy2, hs1, hs2, hm1, hm2, hm3, hd1, hd2, hd3⟩
  simp only [renderHit, formatNumeric, hstrip, hsplit]
  simp only [List.getD_cons_zero, List.getD_cons_succ]
  rw [pyFormat02d_eq_twoDigitChars (natOfDigits_lt_100 hm2 hm3),
    pyFormat02d_eq_twoDigitChars (natOfDigits_lt_100 hd2 hd3)]
  rfl

/-! ## Dates (`datetime.date` as used by web_ui.py) -/

structure PyDate where
  y : Nat
  m : Nat
  d : Nat
deriving DecidableEq

def dateLtB (a b : PyDate) : Bool :=
  decide (a.y < b.y) ||
    (decide (a.y = b.y) &&
      (decide (a.m < b.m) || (decide (a.m = b.m) && decide (a.d < b.d))))

def dateLeB (a b : PyDate) : Bool := !dateLtB b a

/-- `datetime.date.max`. -/
def dateMax : PyDate := ⟨9999, 12, 31⟩

def isLeap (y : Nat) : Bool :=
  decide (y % 4 = 0) && (decide (y % 100 ≠ 0) || decide (y % 400 = 0))

def daysInMonth (y m : Nat) : Nat :=
  if m = 2 then (if isLeap y then 29 else 28)
  else if m = 4 ∨ m = 6 ∨ m = 9 ∨ m = 11 then 30
  else 31

/-- The `datetime.date` constructor's validation. -/
def mkValidDate (y m d : Nat) : Option PyDate :=
  if 1 ≤ y ∧ y ≤ 9999 ∧ 1 ≤ m ∧ m ≤ 12 ∧ 1 ≤ d ∧ d ≤ daysInMonth y m then
    some ⟨y, m, d⟩
  else none

/-- `datetime.date.fromisoformat` on the canonical `YYYY-MM-DD` layout (the
only layout the calendar UI produces). -/
def fromIso (s : Txt) : Option PyDate :=
  match s with
  | [a, b, c, d, s1, e, f, s2, g, h] =>
    if pyIsDigitCh a && pyIsDigitCh b && pyIsDigitCh c && pyIsDigitCh d &&
        pyIsDigitCh e && pyIsDigitCh f && pyIsDigitCh g && pyIsDigitCh h &&
        (s1 = '-') && (s2 = '-') then
      mkValidDate (natOfDigits [a, b, c, d]) (natOfDigits [e, f]) (natOfDigits [g, h])
    else none
  | _ => none

/-- Zero-padded decimal of width four (`date.isoformat`'s year field). -/
def pad4 (n : Nat) : Txt :=
  let s := natStr n
  List.replicate (4 - s.length) '0' ++ s

/-- `date.isoformat()`. -/
def isoStr (p : PyDate) : Txt :=
  pad4 p.y ++ ['-'] ++ pyFormat02d p.m ++ ['-'] ++ pyFormat02d p.d

/-! ## Lithuanian date labels (`_strip_accents`, `_LT_MONTHS`,
`_parse_date_label`, web_ui.py lines 78-158) -/

/-- `_strip_accents` (NFD + drop combining marks) on one character of the
modelled repertoire: precomposed Latin letters fall back to their base
letter, everything else is unchanged. -/
def stripAccentCode (n : Nat) : Nat :=
  if 0xC0 ≤ n ∧ n ≤ 0xC5 then 0x41
  else if n = 0xC7 then 0x43
  else if 0xC8 ≤ n ∧ n ≤ 0xCB then 0x45
  else if 0xCC ≤ n ∧ n ≤ 0xCF then 0x49
  else if n = 0xD1 then 0x4E
  else if 0xD2 ≤ n ∧ n ≤ 0xD6 then 0x4F
  else if 0xD9 ≤ n ∧ n ≤ 0xDC then 0x55
  else if n = 0xDD then 0x59
  else if 0xE0 ≤ n ∧ n ≤ 0xE5 then 0x61
  else if n = 0xE7 then 0x63
  else if 0xE8 ≤ n ∧ n ≤ 0xEB then 0x65
  else if 0xEC ≤ n ∧ n ≤ 0xEF then 0x69
  else if n = 0xF1 then 0x6E
  else if 0xF2 ≤ n ∧ n ≤ 0xF6 then 0x6F
  else if 0xF9 ≤ n ∧ n ≤ 0xFC then 0x75
  else if n = 0xFD ∨ n = 0xFF then 0x79
  else if 0x100 ≤ n ∧ n ≤ 0x105 then (if n % 2 = 0 then 0x41 else 0x61)
  else if 0x106 ≤ n ∧ n ≤ 0x10D then (if n % 2 = 0 then 0x43 else 0x63)
  else if 0x10E ≤ n ∧ n ≤ 0x10F then (if n % 2 = 0 then 0x44 else 0x64)
  else if 0x112 ≤ n ∧ n ≤ 0x11B then (if n % 2 = 0 then 0x45 else 0x65)
  else if 0x11C ≤ n ∧ n ≤ 0x123 then (if n % 2 = 0 then 0x47 else 0x67)
  else if 0x124 ≤ n ∧ n ≤ 0x125 then (if n % 2 = 0 then 0x48 else 0x68)
  else if 0x128 ≤ n ∧ n ≤ 0x130 then (if n % 2 = 0 then 0x49 else 0x69)
  else if 0x134 ≤ n ∧ n ≤ 0x135 then (if n % 2 = 0 then 0x4A else 0x6A)
  else if 0x136 ≤ n ∧ n ≤ 0x137 then (if n % 2 = 0 then 0x4B else 0x6B)
  else if 0x139 ≤ n ∧ n ≤ 0x13E then (if n % 2 = 1 then 0x4C else 0x6C)
  else if 0x143 ≤ n ∧ n ≤ 0x148 then (if n % 2 = 1 then 0x4E else 0x6E)
  else if 0x14C ≤ n ∧ n ≤ 0x151 then (if n % 2 = 0 then 0x4F else 0x6F)
  else if 0x154 ≤ n ∧ n ≤ 0x159 then (if n % 2 = 0 then 0x52 else 0x72)
  else if 0x15A ≤ n ∧ n ≤ 0x161 then (if n % 2 = 0 then 0x53 else 0x73)
  else if 0x162 ≤ n ∧ n ≤ 0x165 then (if n % 2 = 0 then 0x54 else 0x74)
  else if 0x168 ≤ n ∧ n ≤ 0x173 then (if n % 2 = 0 then 0x55 else 0x75)
  else if 0x174 ≤ n ∧ n ≤ 0x175 then (if n % 2 = 0 then 0x57 else 0x77)
  else if n = 0x176 ∨ n = 0x178 then 0x59
  else if n = 0x177 then 0x79
  else if 0x179 ≤ n ∧ n ≤ 0x17E then (if n % 2 = 1 then 0x5A else 0x7A)
  else n

def stripAccentChar (c : Char) : Char := Char.ofNat (stripAccentCode c.toNat)

/-- `_LT_MONTHS` (web_ui.py lines 50-76). -/
def ltMonths : List (Txt × Nat) :=
  [(chars "sausio", 1), (chars "sausis", 1),
   (chars "vasario", 2), (chars "vasaris", 2),
   (chars "kovo", 3), (chars "kovas", 3),
   (chars "balandzio", 4), (chars "balandis", 4),
   (chars "geguzes", 5), (chars "geguze", 5),
   (chars "birzelio", 6), (chars "birzelis", 6),
   (chars "liepos", 7), (chars "liepa", 7),
   (chars "rugpjucio", 8), (chars "rugpjutis", 8),
   (chars "rugsėjo", 9), (chars "rugsejo", 9), (chars "rugsejis", 9),
   (chars "spalio", 10), (chars "spalis", 10),
   (chars "lapkricio", 11), (chars "lapkritis", 11),
   (chars "gruodzio", 12), (chars "gruodis", 12)]

def UNKNOWN_DATE_LABEL : Txt := chars "Nežinoma data"

/-- The month-name scan of `_parse_date_label` (lines 107-114): lower-case
and accent-strip each token, skip `men`, return the first hit. -/
def monthFind : List Txt → Option Nat
  | [] => none
  | t :: ts =>
    let base := (t.map pyToLower).map stripAccentChar
    if base = chars "men" then monthFind ts
    else
      match dlookup base ltMonths with
      | some m => some m
      | none => monthFind ts

/-- The character class of the label regex's month group
(`[A-Za-zĄČĘĖĮŠŲŪŽąčęėįšųūž\s\.]`). -/
def isLabelCls (c : Char) : Bool := isP1Letter c || pyIsSpace c || c = '.'

/-- The label regex of `_parse_date_label`
(year digits, `m.`, a month group over `isLabelCls`, then a 1-2 digit day)
matched at the start of the suffix.  Because the month class contains the
whitespace class, the mandatory whitespace before the day forces the month
group to end one space before the first digit; the scan below is the
deterministic residue of that backtracking. -/
def matchLabelAt (cs : Txt) : Option (Txt × Txt × Txt) :=
  match takeDigits cs 4 with
  | some (y, r1) =>
    match r1.dropWhile pyIsSpace with
    | cm :: r3 =>
      if cm = 'm' ∨ cm = 'M' then
        match r3 with
        | '.' :: r4 =>
          let run := r4.takeWhile isLabelCls
          let after := r4.dropWhile isLabelCls
          match after with
          | a1 :: _ =>
            if pyIsDigitCh a1 then
              match run.getLast? with
              | some lastc =>
                if pyIsSpace lastc then
                  let monthRaw := (run.dropWhile pyIsSpace).dropLast
                  let dayStr := (after.takeWhile pyIsDigitCh).take 2
                  some (y, monthRaw, dayStr)
                else none
              | none => none
            else none
          | [] => none
        | _ => none
      else none
    | [] => none
  | none => none

def searchLabel : Txt → Option (Txt × Txt × Txt)
  | [] => none
  | c :: cs =>
    match matchLabelAt (c :: cs) with
    | some g => some g
    | none => searchLabel cs

/-- `_parse_date_label` (web_ui.py lines 86-122). -/
def parseDateLabel (label : Txt) : Option PyDate :=
  let cleaned := pyStrip label
  if cleaned.isEmpty || cleaned = UNKNOWN_DATE_LABEL then none
  else
    match fromIso cleaned with
    | some d => some d
    | none =>
      match searchLabel cleaned with
      | none => none
      | some (ystr, monthRaw, dstr) =>
        let toks := pySplitWs (monthRaw.map
          (fun c => if isP1Letter c || pyIsSpace c then c else ' '))
        match monthFind toks with
        | none => none
        | some m => mkValidDate (natOfDigits ystr) m (natOfDigits dstr)

/-! ## Label ordering and the calendar helpers -/

/-- Code-point lexicographic order on strings (Python `str.__lt__`). -/
def txtLtB : Txt → Txt → Bool
  | [], [] => false
  | [], _ :: _ => true
  | _ :: _, [] => false
  | c :: cs, d :: ds => decide (c.toNat < d.toNat) || (decide (c = d) && txtLtB cs ds)

/-- `_date_sort_key` (web_ui.py lines 125-127). -/
def sortKey (label : Txt) : PyDate × Txt :=
  ((parseDateLabel label).getD dateMax, lowerTxt label)

def keyLtB (a b : PyDate × Txt) : Bool :=
  dateLtB a.1 b.1 || (decide (a.1 = b.1) && txtLtB a.2 b.2)

def insertAscBy (x : Txt) : List Txt → List Txt
  | [] => [x]
  | y :: ys => if keyLtB (sortKey x) (sortKey y) then x :: y :: ys else y :: insertAscBy x ys

/-- Stable ascending sort by `_date_sort_key` (Python `list.sort(key=...)`). -/
def sortLabels (ls : List Txt) : List Txt :=
  ls.foldl (fun acc l => insertAscBy l acc) []

/-- `_sorted_date_labels` (lines 130-131). -/
def sortedDateLabels (r : RAG) : List Txt := sortLabels (r.corpora.map Prod.fst)

/-- `_available_iso_dates` (lines 134-145). -/
def availableIsoDates (r : RAG) : List Txt :=
  (sortedDateLabels r).foldl
    (fun acc label =>
      match parseDateLabel label with
      | none => acc
      | some p =>
        let iso := isoStr p
        if acc.contains iso then acc else acc ++ [iso]) []

/-! ## Application state and orchestrating functions (web_ui.py) -/

structure AppState where
  rag : RAG
  dateRag : RAG
deriving DecidableEq

def emptyApp : AppState := ⟨emptyRAG, emptyRAG⟩

/-- `clear_db` (web_ui.py lines 670-674): clear both stores of both indices. -/
def clearDb (s : AppState) : AppState :=
  let _ := s
  ⟨emptyRAG, emptyRAG⟩

/-- The reply a chat handler appends to the history.  `reject` stands for
the early returns that append a fixed message without building any
retrieval, `noContext` for the returns after an empty retrieval/corpus, and
`answer prompt` for the branch that sends `prompt` to the language model
(the model's reply itself is the external collaborator's output). -/
inductive ChatReply where
  | reject (msg : Txt)
  | noContext (msg : Txt)
  | answer (prompt : Txt)
deriving DecidableEq

def joinContext (segs : List Txt) : Txt := List.intercalate (chars "\n\n") segs

def mkPrompt (descriptor context question : Txt) : Txt :=
  chars "Use the following context from " ++ descriptor ++
    chars " to answer the question.\n\nContext:\n" ++ context ++
    chars "\n\nQuestion: " ++ question ++ chars "\nAnswer:"

/-- `chat_fn` (web_ui.py lines 491-506). -/
def chatFn (s : AppState) (question speaker : Txt) : AppState × ChatReply :=
  if speaker.isEmpty then (s, ChatReply.reject (chars "Please select a speaker"))
  else if (dlookup speaker s.rag.corpora).isNone then
    (s, ChatReply.reject (chars "Speaker '" ++ speaker ++ chars "' not found"))
  else
    let segments := retrieve s.rag speaker question 3
    (s, ChatReply.answer (mkPrompt speaker (joinContext segments) question))

/-- `_retrieve_period_segments` (web_ui.py lines 480-489). -/
def retrievePeriodSegments (s : AppState) (question : Txt) (labels : List Txt)
    (topK : Nat := 3) : List Txt :=
  let combined := labels.foldl
    (fun acc label =>
      acc ++ ((dlookup label s.dateRag.corpora).getD []).map
        (fun seg => chars "[" ++ label ++ chars "] " ++ seg)) []
  if combined.isEmpty then []
  else
    let temp := addSpeaker (chars "_period_") combined emptyRAG
    retrieve temp (chars "_period_") question topK

/-- `date_chat_fn` (web_ui.py lines 508-613). -/
def dateChatFn (s : AppState) (question startValue endValue : Txt)
    (includeUnknown : Bool) : AppState × ChatReply :=
  let sv := pyStrip startValue
  let ev := pyStrip endValue
  let availableIso := availableIsoDates s.dateRag
  if includeUnknown then
    if ¬sv.isEmpty ∨ ¬ev.isEmpty then
      (s, ChatReply.reject
        (chars "Please clear the calendar selection when querying \"Unknown date\" documents."))
    else if (dlookup UNKNOWN_DATE_LABEL s.dateRag.corpora).isNone then
      (s, ChatReply.reject (chars "No documents stored under \"Unknown date\""))
    else
      let segments := retrieve s.dateRag UNKNOWN_DATE_LABEL question 3
      if segments.isEmpty then
        (s, ChatReply.noContext
          (chars "No context available for documents with an unknown date"))
      else
        (s, ChatReply.answer
          (mkPrompt (chars "documents with an unknown date") (joinContext segments) question))
  else if sv.isEmpty ∨ ev.isEmpty then
    (s, ChatReply.reject (chars "Please select both start and end dates"))
  else
    match fromIso sv, fromIso ev with
    | some startDate, some endDate =>
      if ¬availableIso.contains sv ∨ ¬availableIso.contains ev then
        (s, ChatReply.reject (chars "Please choose dates highlighted in the calendar"))
      else if dateLtB endDate startDate then
        (s, ChatReply.reject (chars "Period start must not be later than period end"))
      else if sv = ev then
        let matching := sortLabels ((s.dateRag.corpora.map Prod.fst).filter
          (fun label =>
            match parseDateLabel label with
            | some p => isoStr p = sv
            | none => false))
        if matching.isEmpty then
          (s, ChatReply.noContext (chars "No context available for " ++ sv))
        else
          let segments :=
            match matching with
            | [only] => retrieve s.dateRag only question 3
            | _ => retrievePeriodSegments s question matching 3
          if segments.isEmpty then
            (s, ChatReply.noContext (chars "No context available for " ++ sv))
          else
            (s, ChatReply.answer
              (mkPrompt (chars "documents dated " ++ sv) (joinContext segments) question))
      else
        let labelsInPeriod := sortLabels ((s.dateRag.corpora.map Prod.fst).filter
          (fun label =>
            match parseDateLabel label with
            | some p => dateLeB startDate p && dateLeB p endDate
            | none => false))
        if labelsInPeriod.isEmpty then
          (s, ChatReply.noContext (chars "No documents found in the selected period"))
        else
          let segments := retrievePeriodSegments s question labelsInPeriod 3
          if segments.isEmpty then
            (s, ChatReply.noContext
              (chars "No relevant context found for the selected period"))
          else
            (s, ChatReply.answer
              (mkPrompt
                (chars "documents dated between " ++ sv ++ chars " and " ++ ev)
                (joinContext segments) question))
    | _, _ => (s, ChatReply.reject (chars "Unable to interpret the selected period"))

/-- Python `text.split('\n\n')` (non-overlapping, leftmost). -/
def splitNNAux : Txt → Txt → List Txt
  | [], acc => [acc.reverse]
  | '\n' :: '\n' :: cs, acc => acc.reverse :: splitNNAux cs []
  | c :: cs, acc => splitNNAux cs (c :: acc)

def splitParagraphs (text : Txt) : List Txt := splitNNAux text []

/-- The per-file body of `upload_fn` (web_ui.py lines 634-655): append the
parsed speaker segments into the speaker index, and the document's segments
(or its paragraphs as a fallback) into the date index under the extracted
date label. -/
def ingestDoc (s : AppState) (text : Txt) : AppState :=
  let parsed := parse_speakers text
  let rag2 := parsed.foldl
    (fun r kv => addSpeaker kv.1 (((dlookup kv.1 r.corpora).getD []) ++ kv.2) r)
    s.rag
  let dateSegments := parsed.foldl (fun acc kv => acc ++ kv.2) []
  let dateSegments2 :=
    if dateSegments.isEmpty then
      ((splitParagraphs text).map pyStrip).filter (fun p => ¬p.isEmpty)
    else dateSegments
  let dateLabel := (extract_document_date text 40).getD UNKNOWN_DATE_LABEL
  let dateRag2 :=
    if dateSegments2.isEmpty then s.dateRag
    else
      addSpeaker dateLabel
        (((dlookup dateLabel s.dateRag.corpora).getD []) ++ dateSegments2)
        s.dateRag
  ⟨rag2, dateRag2⟩

/-! ## Supporting lemmas for accumulation and blank lines -/

lemma dlookup_none_of_not_mem {α : Type} (k : Txt) (l : List (Txt × α))
    (h : k ∉ l.map Prod.fst) : dlookup k l = none := by
  induction l with
  | nil => rfl
  | cons hd tl ih =>
    obtain ⟨k2, v⟩ := hd
    have hne : k2 ≠ k := by
      intro he
      subst he
      exact h (by rw [List.map_cons]; exact List.mem_cons_self _ _)
    simp only [dlookup, hne, if_false]
    exact ih (fun hm => h (List.mem_cons_of_mem _ hm))

/-- Effect of the speaker-index loop of `upload_fn` on one key: the parsed
segments are appended after whatever the key already held. -/
lemma ingestFold_lookup (ps : List (Txt × List Txt)) :
    ∀ (r : RAG), (ps.map Prod.fst).Nodup → ∀ sp,
      dlookup sp (ps.foldl
          (fun r kv => addSpeaker kv.1 (((dlookup kv.1 r.corpora).getD []) ++ kv.2) r)
          r).corpora =
        match dlookup sp ps with
        | some segs => some (((dlookup sp r.corpora).getD []) ++ segs)
        | none => dlookup sp r.corpora := by
  induction ps with
  | nil =>
    intro r _ sp
    rfl
  | cons kv ps2 ih =>
    intro r hnd sp
    obtain ⟨k, v⟩ := kv
    rw [List.foldl_cons]
    have hnd2 : (ps2.map Prod.fst).Nodup := (List.nodup_cons.mp (by simpa using hnd)).2
    have hknot : k ∉ ps2.map Prod.fst := (List.nodup_cons.mp (by simpa using hnd)).1
    rw [ih _ hnd2 sp]
    by_cases hk : k = sp
    · subst hk
      have h1 : dlookup k ((k, v) :: ps2) = some v := by simp [dlookup]
      have h2 : dlookup k ps2 = none := dlookup_none_of_not_mem k ps2 hknot
      rw [h1, h2]
      simp [addSpeaker, dlookup_dset]
    · have h1 : dlookup sp ((k, v) :: ps2) = dlookup sp ps2 := by
        simp [dlookup, hk]
      rw [h1]
      have h2 : dlookup sp (addSpeaker k (((dlookup k r.corpora).getD []) ++ v) r).corpora =
          dlookup sp r.corpora := by
        simp only [addSpeaker, dlookup_dset, if_neg hk]
      rw [h2]

lemma keys_nodup_stepLine (st : PState) (l : Txt)
    (h : (st.speakers.map Prod.fst).Nodup) :
    ((stepLine st l).speakers.map Prod.fst).Nodup := by
  unfold stepLine
  cases hf : findSplit (pyStrip l) (delimPositions (pyStrip l)) with
  | some p =>
    obtain ⟨speaker, remainder⟩ := p
    simp only [keys_dAppendSeg]
    by_cases hm : speaker ∈ st.speakers.map Prod.fst
    · rw [if_pos hm]; exact h
    · rw [if_neg hm]
      rw [List.nodup_append]
      exact ⟨h, List.nodup_singleton _, by simpa using hm⟩
  | none =>
    cases hc : st.current with
    | some c => simpa [keys_dAppendLast] using h
    | none => exact h

lemma keys_nodup_runFrom (lines : List Txt) :
    ∀ (st : PState), (st.speakers.map Prod.fst).Nodup →
      ((lines.foldl stepLine st).speakers.map Prod.fst).Nodup := by
  induction lines with
  | nil => intro st h; exact h
  | cons l rest ih =>
    intro st h
    rw [List.foldl_cons]
    exact ih _ (keys_nodup_stepLine st l h)

lemma parse_speakers_keys_nodup (text : Txt) :
    ((parse_speakers text).map Prod.fst).Nodup :=
  keys_nodup_runFrom _ _ (by simp)

/-- Processing a whitespace-only line: nothing happens while no speaker is
active; once one is, a single space is appended to its last segment. -/
lemma stepLine_ws (st : PState) (ws : Txt) (h : pyStrip ws = []) :
    stepLine st ws =
      match st.current with
      | none => st
      | some c => { st with speakers := dAppendLast c [' '] st.speakers } := by
  unfold stepLine
  rw [h]
  have hd : delimPositions [] = [] := rfl
  rw [hd]
  simp only [findSplit]
  cases hc : st.current with
  | none => rfl
  | some c => simp [hc]

/-- `upload_fn`'s effect on a speaker key of the speaker index. -/
lemma ingestDoc_rag_lookup (s : AppState) (d : Txt) (sp : Txt) :
    dlookup sp (ingestDoc s d).rag.corpora =
      match dlookup sp (parse_speakers d) with
      | some segs => some (((dlookup sp s.rag.corpora).getD []) ++ segs)
      | none => dlookup sp s.rag.corpora := by
  unfold ingestDoc
  exact ingestFold_lookup _ _ (parse_speakers_keys_nodup d) sp

lemma fromIso_ne_empty {s : Txt} {d : PyDate} (h : fromIso s = some d) :
    s.isEmpty = false := by
  match s, h with
  | [a, b, c, d2, s1, e, f, s2, g, hh], _ => rfl

/-! ## The claims -/

/-- C1: on the input `"PIRMININKAS: Sveiki.\nToliau kalba.\nV. JONAITIS. Labas."`
the speaker segmenter returns exactly two keys, `"PIRMININKAS"` with the
single segment `"Sveiki. Toliau kalba."` (the delimiter-free line is merged
into the previous speaker's last segment) and `"V. JONAITIS"` with the
single segment `"Labas."` (the initial `V.` does not split because the text
after it starts with an all-uppercase word). -/
theorem C1_segmenter_example :
    parse_speakers (chars "PIRMININKAS: Sveiki.\nToliau kalba.\nV. JONAITIS. Labas.") =
      [(chars "PIRMININKAS", [chars "Sveiki. Toliau kalba."]),
       (chars "V. JONAITIS", [chars "Labas."])] := by
  decide

/-- C2: for every key present in the index (with its cached token bags) and
every query, `retrieve` returns the `topK` segments in descending
cosine-similarity order; equally scored segments keep their insertion-order
relative position; a key with fewer than `topK` segments yields all of its
segments.  In particular, after `put("A", ["x y", "y y y"])`,
`query("A", "z", topK=5)` returns both segments in insertion order. -/
theorem C2_retrieve_topk :
    (∀ (r : RAG) (sp q : Txt) (k : Nat) (segs : List Txt),
      dlookup sp r.corpora = some segs →
      dlookup sp r.tokens = some (segs.map tokenize) →
      ∃ idxs : List Nat,
        retrieve r sp q k = (idxs.take k).map (fun i => segs.getD i []) ∧
        List.Perm idxs (List.range segs.length) ∧
        idxs.Pairwise (rankRel (scoreOf q segs)) ∧
        (segs.length ≤ k → List.Perm (retrieve r sp q k) segs)) ∧
    retrieve (addSpeaker (chars "A") [chars "x y", chars "y y y"] emptyRAG)
      (chars "A") (chars "z") 5 = [chars "x y", chars "y y y"] :=
  ⟨retrieve_spec, by decide⟩

theorem C2_retrieve_topk_witness :
    (dlookup (chars "A")
        (addSpeaker (chars "A") [chars "x y", chars "y y y"] emptyRAG).corpora =
      some [chars "x y", chars "y y y"]) ∧
    (∃ idxs : List Nat,
      retrieve (addSpeaker (chars "A") [chars "x y", chars "y y y"] emptyRAG)
          (chars "A") (chars "z") 5 =
        (idxs.take 5).map (fun i => [chars "x y", chars "y y y"].getD i []) ∧
      List.Perm idxs (List.range [chars "x y", chars "y y y"].length) ∧
      idxs.Pairwise (rankRel (scoreOf (chars "z") [chars "x y", chars "y y y"])) ∧
      ([chars "x y", chars "y y y"].length ≤ 5 →
        List.Perm
          (retrieve (addSpeaker (chars "A") [chars "x y", chars "y y y"] emptyRAG)
            (chars "A") (chars "z") 5)
          [chars "x y", chars "y y y"])) :=
  ⟨by decide,
   C2_retrieve_topk.1 _ _ _ 5 [chars "x y", chars "y y y"] (by decide) (by decide)⟩

/-- C3 counterexample: inserting a line consisting only of whitespace does
change the output — it appends a space character to the active speaker's
last segment (`"x"` becomes `"x "`), contradicting the claim that such a
line contributes nothing. -/
theorem C3_ws_counterexample :
    parse_speakers (chars "A: x\n ") = [(chars "A", [chars "x "])] ∧
    parse_speakers (chars "A: x") = [(chars "A", [chars "x"])] ∧
    parse_speakers (chars "A: x\n ") ≠ parse_speakers (chars "A: x") := by
  refine ⟨by decide, by decide, by decide⟩

/-- C3 (amended): a line consisting only of whitespace contributes nothing
while no speaker is active; once a speaker is active, it appends exactly
one space character to that speaker's last segment, leaving the key set,
the active speaker and every other key's segments unchanged. -/
theorem C3_ws_line_effect :
    ∀ (pre : List Txt) (ws : Txt), pyStrip ws = [] →
      (((runLines pre).current = none → runLines (pre ++ [ws]) = runLines pre) ∧
       (∀ c, (runLines pre).current = some c →
         (runLines (pre ++ [ws])).current = some c ∧
         (runLines (pre ++ [ws])).speakers.map Prod.fst =
           (runLines pre).speakers.map Prod.fst ∧
         (∀ k, k ≠ c →
           dlookup k (runLines (pre ++ [ws])).speakers =
             dlookup k (runLines pre).speakers) ∧
         dlookup c (runLines (pre ++ [ws])).speakers =
           (dlookup c (runLines pre).speakers).map
             (modifyLast (fun seg => seg ++ [' '])))) := by
  intro pre ws h
  have hrun : runLines (pre ++ [ws]) = stepLine (runLines pre) ws := by
    unfold runLines
    rw [List.foldl_append]
    rfl
  rw [hrun, stepLine_ws _ _ h]
  constructor
  · intro hc
    simp [hc]
  · intro c hc
    simp only [hc]
    refine ⟨trivial, keys_dAppendLast _ _ _, ?_, ?_⟩
    · intro k hk
      rw [dlookup_dAppendLast, if_neg (fun he => hk he.symm)]
    · rw [dlookup_dAppendLast, if_pos rfl]

theorem C3_ws_line_effect_witness :
    pyStrip (chars " ") = [] ∧
    (((runLines [chars "A: x"]).current = none →
        runLines ([chars "A: x"] ++ [chars " "]) = runLines [chars "A: x"]) ∧
     (∀ c, (runLines [chars "A: x"]).current = some c →
       (runLines ([chars "A: x"] ++ [chars " "])).current = some c ∧
       (runLines ([chars "A: x"] ++ [chars " "])).speakers.map Prod.fst =
         (runLines [chars "A: x"]).speakers.map Prod.fst ∧
       (∀ k, k ≠ c →
         dlookup k (runLines ([chars "A: x"] ++ [chars " "])).speakers =
           dlookup k (runLines [chars "A: x"]).speakers) ∧
       dlookup c (runLines ([chars "A: x"] ++ [chars " "])).speakers =
         (dlookup c (runLines [chars "A: x"]).speakers).map
           (modifyLast (fun seg => seg ++ [' '])))) :=
  ⟨by decide, C3_ws_line_effect [chars "A: x"] (chars " ") (by decide)⟩

/-- C4: whenever the first date hit of the extractor comes from the numeric
pattern, the match has the numeric shape (four year digits, one or two
month and day digits, `-`/`/`/`.` separators) and the returned value is the
spec's reformatting: the year digits, then zero-padded two-digit month and
day, joined by `-`, independently of the separators and padding the source
used.  In particular `"2023-05-07 posėdis"` extracts to `"2023-05-07"`. -/
theorem C4_numeric_reformat :
    (∀ (text : Txt) (nm : NumMatch),
      firstDateHit text 40 = some (Sum.inr nm) →
      NumShape nm ∧
        extract_document_date text 40 = some (specIsoReformat nm)) ∧
    extract_document_date (chars "2023-05-07 posėdis") 40 =
      some (chars "2023-05-07") := by
  constructor
  · intro text nm h
    have hs := firstDateHit_inr_shape text 40 nm h
    refine ⟨hs, ?_⟩
    unfold extract_document_date
    rw [h]
    rw [Option.map_some']
    rw [renderHit_inr nm hs]
  · decide

theorem C4_numeric_reformat_witness :
    (firstDateHit (chars "2023-05-07 posėdis") 40 =
      some (Sum.inr ⟨chars "2023", '-', chars "05", '-', chars "07"⟩)) ∧
    (NumShape ⟨chars "2023", '-', chars "05", '-', chars "07"⟩ ∧
      extract_document_date (chars "2023-05-07 posėdis") 40 =
        some (specIsoReformat ⟨chars "2023", '-', chars "05", '-', chars "07"⟩)) :=
  ⟨by decide,
   C4_numeric_reformat.1 (chars "2023-05-07 posėdis")
     ⟨chars "2023", '-', chars "05", '-', chars "07"⟩ (by decide)⟩

/-- C5: ingesting a document appends its parsed segments for each speaker
after that speaker's existing segments (never overwriting); in particular,
after ingesting `d1` and then `d2` into an empty system, a speaker common
to both holds exactly `d1`'s segments followed by `d2`'s. -/
theorem C5_ingest_accumulates :
    (∀ (s : AppState) (d : Txt) (sp : Txt) (segs : List Txt),
      dlookup sp (parse_speakers d) = some segs →
      dlookup sp (ingestDoc s d).rag.corpora =
        some (((dlookup sp s.rag.corpora).getD []) ++ segs)) ∧
    (∀ (d1 d2 sp : Txt) (segs1 segs2 : List Txt),
      dlookup sp (parse_speakers d1) = some segs1 →
      dlookup sp (parse_speakers d2) = some segs2 →
      dlookup sp ((ingestDoc (ingestDoc emptyApp d1) d2).rag.corpora) =
        some (segs1 ++ segs2)) := by
  have step : ∀ (s : AppState) (d : Txt) (sp : Txt) (segs : List Txt),
      dlookup sp (parse_speakers d) = some segs →
      dlookup sp (ingestDoc s d).rag.corpora =
        some (((dlookup sp s.rag.corpora).getD []) ++ segs) := by
    intro s d sp segs h
    rw [ingestDoc_rag_lookup, h]
  refine ⟨step, ?_⟩
  intro d1 d2 sp segs1 segs2 h1 h2
  rw [step _ _ _ _ h2, step _ _ _ _ h1]
  simp [emptyApp, emptyRAG, dlookup]

theorem C5_ingest_accumulates_witness :
    (dlookup (chars "A") (parse_speakers (chars "A: x")) = some [chars "x"]) ∧
    (dlookup (chars "A") (parse_speakers (chars "A: y")) = some [chars "y"]) ∧
    dlookup (chars "A")
        ((ingestDoc (ingestDoc emptyApp (chars "A: x")) (chars "A: y")).rag.corpora) =
      some ([chars "x"] ++ [chars "y"]) :=
  ⟨by decide, by decide,
   C5_ingest_accumulates.2 (chars "A: x") (chars "A: y") (chars "A")
     [chars "x"] [chars "y"] (by decide) (by decide)⟩

/-- C6: a date-range query whose two bounds parse as dates with the start
chronologically after the end is answered by a `reject` — a validation
message produced before any retrieval is built — and the state (hence both
indices) is returned unchanged. -/
theorem C6_date_range_validation :
    ∀ (s : AppState) (q svRaw evRaw : Txt) (iu : Bool) (sd ed : PyDate),
      fromIso (pyStrip svRaw) = some sd →
      fromIso (pyStrip evRaw) = some ed →
      dateLtB ed sd = true →
      ∃ msg, dateChatFn s q svRaw evRaw iu = (s, ChatReply.reject msg) := by
  intro s q svRaw evRaw iu sd ed h1 h2 h3
  have hsv : (pyStrip svRaw).isEmpty = false := fromIso_ne_empty h1
  have hev : (pyStrip evRaw).isEmpty = false := fromIso_ne_empty h2
  cases iu with
  | true =>
    exact ⟨_, by
      simp only [dateChatFn]
      rw [if_pos trivial, if_pos (Or.inl (by simp [hsv]))]⟩
  | false =>
    simp only [dateChatFn]
    rw [if_neg (by simp), if_neg (by simp [hsv, hev]), h1, h2]
    dsimp only
    by_cases hav :
        ¬(availableIsoDates s.dateRag).contains (pyStrip svRaw) = true ∨
          ¬(availableIsoDates s.dateRag).contains (pyStrip evRaw) = true
    · exact ⟨_, by rw [if_pos hav]⟩
    · exact ⟨_, by rw [if_neg hav, if_pos h3]⟩

theorem C6_date_range_validation_witness :
    (fromIso (pyStrip (chars "2023-02-01")) = some ⟨2023, 2, 1⟩) ∧
    (fromIso (pyStrip (chars "2023-01-01")) = some ⟨2023, 1, 1⟩) ∧
    (dateLtB ⟨2023, 1, 1⟩ ⟨2023, 2, 1⟩ = true) ∧
    (∃ msg, dateChatFn emptyApp (chars "klausimas") (chars "2023-02-01")
        (chars "2023-01-01") false = (emptyApp, ChatReply.reject msg)) :=
  ⟨by decide, by decide, by decide,
   C6_date_range_validation emptyApp (chars "klausimas") (chars "2023-02-01")
     (chars "2023-01-01") false ⟨2023, 2, 1⟩ ⟨2023, 1, 1⟩
     (by decide) (by decide) (by decide)⟩

/-- C7: the full reset empties both the speaker-keyed and the date-keyed
index at once, and afterwards a speaker query for any previously known
(non-empty) key is answered with the user-facing
`Speaker '<key>' not found` message instead of segments. -/
theorem C7_reset_not_found :
    ∀ (s : AppState) (q sp : Txt),
      sp ∈ s.rag.corpora.map Prod.fst →
      sp ≠ [] →
      (clearDb s).rag = emptyRAG ∧ (clearDb s).dateRag = emptyRAG ∧
      chatFn (clearDb s) q sp =
        (clearDb s,
         ChatReply.reject (chars "Speaker '" ++ sp ++ chars "' not found")) := by
  intro s q sp _ hne
  refine ⟨rfl, rfl, ?_⟩
  have he : sp.isEmpty = false := by
    cases sp with
    | nil => exact absurd rfl hne
    | cons a as => rfl
  simp only [chatFn, clearDb, emptyRAG]
  rw [if_neg (by simp [he]),
    if_pos (show (dlookup sp ([] : List (Txt × List Txt))).isNone = true from rfl)]

theorem C7_reset_not_found_witness :
    (chars "A" ∈
      (AppState.mk (addSpeaker (chars "A") [chars "x"] emptyRAG) emptyRAG).rag.corpora.map
        Prod.fst) ∧
    (chars "A" ≠ ([] : Txt)) ∧
    ((clearDb (AppState.mk (addSpeaker (chars "A") [chars "x"] emptyRAG) emptyRAG)).rag =
        emptyRAG ∧
      (clearDb (AppState.mk (addSpeaker (chars "A") [chars "x"] emptyRAG) emptyRAG)).dateRag =
        emptyRAG ∧
      chatFn (clearDb (AppState.mk (addSpeaker (chars "A") [chars "x"] emptyRAG) emptyRAG))
          (chars "klausimas") (chars "A") =
        (clearDb (AppState.mk (addSpeaker (chars "A") [chars "x"] emptyRAG) emptyRAG),
         ChatReply.reject (chars "Speaker '" ++ chars "A" ++ chars "' not found"))) :=
  ⟨by decide, by decide,
   C7_reset_not_found (AppState.mk (addSpeaker (chars "A") [chars "x"] emptyRAG) emptyRAG)
     (chars "klausimas") (chars "A") (by decide) (by decide)⟩

/-- C9 counterexample: `tokenize("a_b")` returns the token `"a_b"`, whose
middle character `_` is not alphanumeric — refuting the claim that every
character of every returned token is alphanumeric. -/
theorem C9_tokenize_counterexample :
    tokenize (chars "a_b") = [chars "a_b"] ∧ pyIsAlnum '_' = false := by
  refine ⟨by decide, by decide⟩

/-- C9 (amended): `tokenize("Café, CAFÉ!")` yields the lowercase,
diacritic-preserving tokens `["café", "café"]`, and in general every
character of every returned token is a word character (a letter, a digit or
the underscore — so punctuation other than the underscore never appears)
and is never an uppercase letter. -/
theorem C9_tokenize_lowercase_word :
    tokenize (chars "Café, CAFÉ!") = [chars "café", chars "café"] ∧
    (∀ (text : Txt) (tok : Txt), tok ∈ tokenize text →
      ∀ c ∈ tok, pyIsWordChar c = true ∧ pyIsUpperCh c = false) := by
  refine ⟨by decide, ?_⟩
  intro text tok htok c hc
  exact ⟨tokenize_sat htok c hc, tokenize_no_upper htok c hc⟩

theorem C9_tokenize_lowercase_word_witness :
    (chars "café" ∈ tokenize (chars "Café, CAFÉ!")) ∧
    (∀ c ∈ chars "café", pyIsWordChar c = true ∧ pyIsUpperCh c = false) :=
  ⟨by decide,
   C9_tokenize_lowercase_word.2 (chars "Café, CAFÉ!") (chars "café") (by decide)⟩

/-- C10: the empty index satisfies the cached-token invariant — the segment
store and the token store hold the same keys, with equally long lists per
key, the i-th bag being the token bag of the i-th segment — and every index
operation (`put`/`add_speaker`, `query`/`retrieve`, `clear`) preserves
it. -/
theorem C10_cached_tokens_invariant :
    RAGInv emptyRAG ∧
    ∀ (r : RAG) (op : RAGOp), RAGInv r → RAGInv (applyOp r op) :=
  ⟨RAGInv_empty, RAGInv_applyOp⟩

theorem C10_cached_tokens_invariant_witness :
    RAGInv (applyOp emptyRAG (RAGOp.put (chars "A") [chars "x y"])) :=
  C10_cached_tokens_invariant.2 emptyRAG (RAGOp.put (chars "A") [chars "x y"])
    RAGInv_empty
